import Mathlib

set_option maxRecDepth 100000
set_option maxHeartbeats 1000000

/-!
# Verification of the journal store in `streamlit_journal_app.py`

This file is a shallow embedding of the persistence layer of the
repository's single source file `src/streamlit_journal_app.py`:

* the configuration tables (`FOCUS_OPTIONS`, `FOCUS_FIELDS`,
  `GENERAL_COLUMNS`, `ALL_COLUMNS`),
* the persisted-table data model (a pandas `DataFrame` is modelled as a
  column-name list plus rows of cells; a cell is `Option String`, with
  `none` standing for pandas `NaN`/`NaT` and `some s` for the textual
  value `s` — numeric dtype inference by `read_csv` is abstracted, every
  value is kept as its text),
* `load_data` / `save_data` (CSV persistence through pandas
  `read_csv` / `to_csv`), and
* the record operations `add_entry`, `edit_entry`, `delete_entry` and
  the "Save Entry" button handler of tab 1.

The file system is modelled as the contents of the single file
`journal_entries.csv`: `none` when the file does not exist, `some s`
when it exists with contents `s`.
-/

/-- A pandas cell: `none` is `NaN`/`NaT`, `some s` is the text value `s`.
Numeric dtype inference performed by `pd.read_csv` is abstracted away:
every scalar is kept as the text pandas would print for it. -/
abbrev Cell := Option String

/-- A pandas `DataFrame`: ordered column names plus rows of cells; each
row is positionally aligned with `cols`. -/
structure DataFrame where
  cols : List String
  rows : List (List Cell)
deriving DecidableEq, Repr

/-- The contents of `journal_entries.csv`: `none` = file absent. -/
abbrev FS := Option String

/-- `FOCUS_OPTIONS` from the source, reduced to the focus names and the
ordered field names of each focus.  The widget type and default of each
field (`"text"`, `"slider"`, …) only drive the Streamlit input builder
`build_focus_fields`, which is UI glue outside the persisted data model,
so they are dropped here. -/
def FOCUS_OPTIONS : List (String × List String) :=
  [ ("Time Log", ["Name", "Time Range", "Energy", "Focus Level", "Notes"]),
    ("Expense Log", ["Items", "Category", "Amount", "Emotion Before",
      "Emotion After", "Need vs Want (1-5)", "Notes"]),
    ("Stress Log", ["Trigger", "Stress (0-10)", "Negative Thought",
      "Reframe", "Mood After"]),
    ("Eating Log", ["Meal", "Food Items", "Hunger (0-10)", "Stress (0-10)",
      "Craving (0-10)", "Mood Before", "Mood After", "Notes"]) ]

/-- `FOCUS_NAMES = [x[0] for x in FOCUS_OPTIONS]`. -/
def FOCUS_NAMES : List String := FOCUS_OPTIONS.map Prod.fst

/-- Keep the first occurrence of every element (Python `set` membership
in construction order; order is then normalised by sorting). -/
def dedupFirst (l : List String) : List String :=
  l.foldl (fun acc x => if acc.contains x then acc else acc ++ [x]) []

/-- Code-point lexicographic order on char lists: Python string `<`. -/
def lexLt : List Char → List Char → Bool
  | [], [] => false
  | [], _ :: _ => true
  | _ :: _, [] => false
  | a :: as, b :: bs =>
    if a.toNat < b.toNat then true
    else if a.toNat = b.toNat then lexLt as bs
    else false

/-- Python string `<` (code-point lexicographic). -/
def strLt (s t : String) : Bool := lexLt s.data t.data

/-- Insert into a sorted list, code-point lexicographic order. -/
def insertSorted (s : String) : List String → List String
  | [] => [s]
  | t :: ts => if strLt s t then s :: t :: ts else t :: insertSorted s ts

/-- Insertion sort by code-point order: Python `sorted`. -/
def sortStrings (l : List String) : List String :=
  l.foldr insertSorted []

/-- `FOCUS_FIELDS = sorted(list(set([field for _, fl in FOCUS_OPTIONS
for field, *_ in fl])))`. -/
def FOCUS_FIELDS : List String :=
  sortStrings (dedupFirst ((FOCUS_OPTIONS.map Prod.snd).flatten))

def GENERAL_COLUMNS : List String := ["DateTime", "Mood", "Focus"]

/-- `ALL_COLUMNS = GENERAL_COLUMNS + FOCUS_FIELDS`. -/
def ALL_COLUMNS : List String := GENERAL_COLUMNS ++ FOCUS_FIELDS

/-- The canonical columns, written out (proved equal to `ALL_COLUMNS`
below). -/
def ALL_COLUMNS_LIST : List String :=
  ["DateTime", "Mood", "Focus",
   "Amount", "Category", "Craving (0-10)", "Emotion After",
   "Emotion Before", "Energy", "Focus Level", "Food Items",
   "Hunger (0-10)", "Items", "Meal", "Mood After", "Mood Before",
   "Name", "Need vs Want (1-5)", "Negative Thought", "Notes",
   "Reframe", "Stress (0-10)", "Time Range", "Trigger"]

/-! ## Cells and positional column access -/

/-- Value of the first column named `col` (pandas `df[col]` for one row);
`none` when the column is absent.  Rows are positionally aligned with the
column list. -/
def getCell : List String → List Cell → String → Cell
  | c :: cs, x :: xs, col => if c = col then x else getCell cs xs col
  | _, _, _ => none

/-- Write `v` into the column named `col` (pandas `df.at[idx, col] = v`
for one row). -/
def setCell : List String → List Cell → String → Cell → List Cell
  | c :: cs, x :: xs, col, v => (if c = col then v else x) :: setCell cs xs col v
  | _, xs, _, _ => xs

/-- Apply `f` to the cell of column `col` (pandas
`df[col] = f(df[col])` restricted to one row). -/
def mapCellAt : List String → List Cell → String → (Cell → Cell) → List Cell
  | c :: cs, x :: xs, col, f => (if c = col then f x else x) :: mapCellAt cs xs col f
  | _, xs, _, _ => xs

/-- The column `col` of a frame, as the list of its cells down the rows
(pandas `df[col]`). -/
def colValues (df : DataFrame) (col : String) : List Cell :=
  df.rows.map (fun r => getCell df.cols r col)

/-! ## The textual datetime model

`pd.to_datetime(..., errors="coerce")` is modelled on the two textual
shapes the app ever reads or writes: `YYYY-MM-DD HH:MM:SS` (what
`to_csv` prints for a timestamp) and the legacy date-only `YYYY-MM-DD`.
A parseable value is kept in the canonical 19-character form, anything
else coerces to `NaT` (`none`). -/

/-- Numeric value of a two-digit string. -/
def natOf2 (a b : Char) : Nat := (a.toNat - 48) * 10 + (b.toNat - 48)

/-- `YYYY-MM-DD` with in-range month and day. -/
def isDateChars : List Char → Bool
  | [y1, y2, y3, y4, '-', m1, m2, '-', d1, d2] =>
    y1.isDigit && y2.isDigit && y3.isDigit && y4.isDigit &&
    m1.isDigit && m2.isDigit && d1.isDigit && d2.isDigit &&
    decide (1 ≤ natOf2 m1 m2) && decide (natOf2 m1 m2 ≤ 12) &&
    decide (1 ≤ natOf2 d1 d2) && decide (natOf2 d1 d2 ≤ 31)
  | _ => false

/-- `YYYY-MM-DD HH:MM:SS` with in-range fields. -/
def isDateTimeChars : List Char → Bool
  | [y1, y2, y3, y4, '-', m1, m2, '-', d1, d2, ' ',
     h1, h2, ':', n1, n2, ':', s1, s2] =>
    isDateChars [y1, y2, y3, y4, '-', m1, m2, '-', d1, d2] &&
    h1.isDigit && h2.isDigit && n1.isDigit && n2.isDigit &&
    s1.isDigit && s2.isDigit &&
    decide (natOf2 h1 h2 ≤ 23) && decide (natOf2 n1 n2 ≤ 59) &&
    decide (natOf2 s1 s2 ≤ 59)
  | _ => false

/-- `pd.to_datetime(cell, errors="coerce")` for one cell: `NaT` stays
`NaT`, a canonical timestamp is kept, a date-only value becomes its
midnight timestamp, anything else coerces to `NaT`. -/
def to_datetime_cell (c : Cell) : Cell :=
  match c with
  | none => none
  | some s =>
    if isDateTimeChars s.data then some s
    else if isDateChars s.data then some (s ++ " 00:00:00")
    else none

/-! ## CSV serialization (pandas `to_csv(index=False)`) -/

/-- Characters that force quoting under pandas' minimal quoting. -/
def plainChar (c : Char) : Bool :=
  !(c == ',' || c == '\"' || c == '\n' || c == '\r')

/-- A string `to_csv` writes verbatim, with no quoting. -/
def plainStr (s : String) : Bool := s.data.all plainChar

/-- A cell whose textual value needs no quoting. -/
def plainCell : Cell → Bool
  | none => true
  | some s => plainStr s

/-- Double every quote (CSV escaping inside a quoted field). -/
def escQuotes : List Char → List Char
  | [] => []
  | c :: r => if c == '\"' then '\"' :: '\"' :: escQuotes r else c :: escQuotes r

/-- One CSV field under minimal quoting. -/
def csvField (l : List Char) : List Char :=
  if l.all plainChar then l else '\"' :: (escQuotes l ++ ['\"'])

/-- How `to_csv` prints one cell: `NaN` prints as the empty field. -/
def renderCell : Cell → List Char
  | none => []
  | some s => csvField s.data

/-- Join chunks with a separator character. -/
def joinSep (sep : Char) : List (List Char) → List Char
  | [] => []
  | [x] => x
  | x :: y :: ys => x ++ sep :: joinSep sep (y :: ys)

/-- `df.to_csv(index=False)`: a header line of the column names, one
line per row, newline-terminated. -/
def to_csv (df : DataFrame) : String :=
  ⟨joinSep '\n'
      (joinSep ',' (df.cols.map (fun c => csvField c.data))
        :: df.rows.map (fun r => joinSep ',' (r.map renderCell)))
    ++ ['\n']⟩

/-! ## CSV parsing (pandas `read_csv`) -/

/-- Split on `sep` outside double quotes (the CSV tokenizer's field and
record splitting). -/
def splitQA (sep : Char) : Bool → List Char → List (List Char)
  | _, [] => [[]]
  | inQ, c :: rest =>
    if c == sep && !inQ then [] :: splitQA sep false rest
    else
      match splitQA sep (if c == '\"' then !inQ else inQ) rest with
      | [] => [[c]]
      | f :: fs => (c :: f) :: fs

/-- The tokenizer's in-quotes flag after scanning `l` from state
`inQ`. -/
def scanQ : Bool → List Char → Bool
  | inQ, [] => inQ
  | inQ, c :: r => scanQ (if c == '\"' then !inQ else inQ) r

/-- `sep` occurs in `l`, scanned from state `inQ`, only at quoted
positions — so the tokenizer never splits inside `l`. -/
def noUnqSep (sep : Char) : Bool → List Char → Bool
  | _, [] => true
  | inQ, c :: r => (!(c == sep) || inQ) && noUnqSep sep (if c == '\"' then !inQ else inQ) r

/-- Undo CSV quote doubling. -/
def unescQuotes : List Char → List Char
  | '\"' :: '\"' :: r => '\"' :: unescQuotes r
  | c :: r => c :: unescQuotes r
  | [] => []

/-- Strip the surrounding quotes of a quoted field. -/
def unquoteField (f : List Char) : List Char :=
  match f with
  | '\"' :: rest => unescQuotes rest.dropLast
  | _ => f

/-- pandas' default `na_values` for `read_csv` (`keep_default_na=True`):
every field whose (unquoted) text equals one of these tokens is read as
`NaN`. -/
def NA_TOKENS : List String :=
  ["", "#N/A", "#N/A N/A", "#NA", "-1.#IND", "-1.#QNAN", "-NaN", "-nan",
   "1.#IND", "1.#QNAN", "<NA>", "N/A", "NA", "NULL", "NaN", "None",
   "n/a", "nan", "null"]

/-- How `read_csv` reads one data field: the field is unquoted and then
matched against pandas' default `na_values` — the empty field and the
tokens `"nan"`, `"NaN"`, `"None"`, `"NA"`, `"null"`, … all become `NaN`.
Numeric dtype inference is abstracted (other values stay textual). -/
def parseField (f : List Char) : Cell :=
  if NA_TOKENS.contains (⟨unquoteField f⟩ : String) then none
  else some (⟨unquoteField f⟩ : String)

/-- Failures `load_data` does not catch (only `FileNotFoundError` is
caught in the source): pandas `EmptyDataError` on an empty file,
pandas `ParserError` on a row wider than the header, and the `KeyError`
raised by `df["DateTime"]` when that column is absent. -/
inductive LoadError where
  | emptyData
  | parserError
  | keyError
deriving DecidableEq, Repr

/-- `pd.read_csv`: first non-blank line is the header; blank lines are
skipped; a row wider than the header is a parse error; a narrower row is
padded with `NaN`. -/
def read_csv (s : String) : Except LoadError DataFrame :=
  if s.data.isEmpty then .error .emptyData
  else
    match (splitQA '\n' false s.data).filter (fun l => !l.isEmpty) with
    | [] => .error .emptyData
    | h :: rest =>
      let cols := (splitQA ',' false h).map (fun f => (⟨unquoteField f⟩ : String))
      let rawRows := rest.map (fun l => (splitQA ',' false l).map parseField)
      if rawRows.any (fun r => cols.length < r.length) then .error .parserError
      else .ok ⟨cols, rawRows.map (fun r => r ++ List.replicate (cols.length - r.length) none)⟩

/-! ## `load_data` / `save_data` -/

/-- `df.rename(columns={"Date": "DateTime"})`, applied exactly when
`"DateTime" not in df.columns and "Date" in df.columns`
(source lines 62-63). -/
def renameDateCol (df : DataFrame) : DataFrame :=
  if !df.cols.contains "DateTime" && df.cols.contains "Date" then
    ⟨df.cols.map (fun c => if c = "Date" then "DateTime" else c), df.rows⟩
  else df

/-- `df["DateTime"] = pd.to_datetime(df["DateTime"], errors="coerce")`
(source line 64), as a per-row cell map. -/
def toDatetimeCol (df : DataFrame) : DataFrame :=
  ⟨df.cols, df.rows.map (fun r => mapCellAt df.cols r "DateTime" to_datetime_cell)⟩

/-- `df[col] = ""` for a new column: appended at the end, every row gets
the empty string (source line 74). -/
def addCol (df : DataFrame) (c : String) : DataFrame :=
  ⟨df.cols ++ [c], df.rows.map (fun r => r ++ [some ""])⟩

/-- The back-fill loop of source lines 72-74: for each wanted column not
yet present, add it filled with `""`. -/
def backfill (df : DataFrame) (L : List String) : DataFrame :=
  L.foldl (fun d c => if d.cols.contains c then d else addCol d c) df

/-- `df = df[L]`: select the named columns, in that order
(source line 75). -/
def reindex (df : DataFrame) (L : List String) : DataFrame :=
  ⟨L, df.rows.map (fun r => L.map (getCell df.cols r))⟩

/-- `cols_unique` of source lines 66-71: `ALL_COLUMNS` with duplicates
dropped, first occurrences kept. -/
def cols_unique : List String := dedupFirst ALL_COLUMNS

/-- `load_data()` (source lines 59-78).  The state component records
that the function only reads the file.  `FileNotFoundError` is the only
exception caught (yielding the empty canonical frame); every other
failure of the body propagates as a `LoadError`. -/
def load_data (fs : FS) : FS × Except LoadError DataFrame :=
  match fs with
  | none => (none, .ok ⟨ALL_COLUMNS, []⟩)
  | some s =>
    (some s,
      match read_csv s with
      | .error e => .error e
      | .ok df0 =>
        let df1 := renameDateCol df0
        if df1.cols.contains "DateTime" then
          .ok (reindex (backfill (toDatetimeCol df1) cols_unique) cols_unique)
        else .error .keyError)

/-- `save_data(df)` (source lines 80-81): `df.to_csv` opens the target
path for writing (truncating it) and writes the serialized table
directly; there is no staging file and no atomic replace. -/
def save_data (df : DataFrame) (_fs : FS) : FS := some (to_csv df)

/-- `save_data` interrupted after `k` bytes have been written: the
target was already truncated, so the artifact holds exactly the first
`k` bytes of the new serialization. -/
def save_data_interrupted (df : DataFrame) (k : Nat) (_fs : FS) : FS :=
  some ⟨(to_csv df).data.take k⟩

/-- The cell-level effect of one `to_csv`/`read_csv` cycle: a value that
is one of pandas' default NA tokens (the empty string, `"nan"`,
`"None"`, `"NA"`, `"null"`, …) is read back as `NaN`; every other value
survives textually. -/
def normCell (c : Cell) : Cell :=
  match c with
  | none => none
  | some s => if NA_TOKENS.contains s then none else some s

/-- A frame after one persist/load cycle: same columns, same rows, every
NA-token cell collapsed to `NaN`. -/
def normalizeDF (df : DataFrame) : DataFrame :=
  ⟨df.cols, df.rows.map (List.map normCell)⟩

/-! ## Record operations -/

/-- The `to_add` dict of `add_entry` (source lines 110-115): every
canonical column defaults to `""`, then `DateTime`, `Mood`, `Focus` and
finally the supplied focus fields are written (later writes win, as in a
Python dict). -/
def to_add (dt mood focus : String) (fields : List (String × String))
    (col : String) : Cell :=
  match fields.reverse.lookup col with
  | some v => some v
  | none =>
    if col = "DateTime" then some dt
    else if col = "Mood" then some mood
    else if col = "Focus" then some focus
    else some ""

/-- `add_entry` (source lines 109-117): append one row built from
`to_add`.  `pd.concat` aligns on column names; in the app the frame
always carries exactly `ALL_COLUMNS` (theorems assume it), so the
concat is a plain row append.  `pd.to_datetime(dt)` on the
`datetime.combine` value is the identity timestamp, so `dt` is the
canonical 19-character text. -/
def add_entry (df : DataFrame) (dt mood focus : String)
    (fields : List (String × String)) : DataFrame :=
  ⟨df.cols, df.rows ++ [df.cols.map (to_add dt mood focus fields)]⟩

/-- Replace row `idx` by `f row` (row labels equal positions after
`reset_index`). -/
def updateRowAt : List (List Cell) → Nat → (List Cell → List Cell) → List (List Cell)
  | [], _, _ => []
  | r :: rs, 0, f => f r :: rs
  | r :: rs, n + 1, f => r :: updateRowAt rs n f

/-- The cell writes of `edit_entry` on the selected row: `Mood`, then
`Focus`, then each supplied focus field, in order (source lines
120-123). -/
def applyEdits (cols : List String) (mood focus : String)
    (fields : List (String × String)) (r : List Cell) : List Cell :=
  (("Mood", mood) :: ("Focus", focus) :: fields).foldl
    (fun row kv => setCell cols row kv.1 (some kv.2)) r

/-- `edit_entry` (source lines 119-124). -/
def edit_entry (df : DataFrame) (idx : Nat) (mood focus : String)
    (fields : List (String × String)) : DataFrame :=
  ⟨df.cols, updateRowAt df.rows idx (applyEdits df.cols mood focus fields)⟩

/-- `delete_entry` (source lines 126-127): `df.drop(idx)` then
`reset_index(drop=True)` is the positional removal of row `idx`. -/
def delete_entry (df : DataFrame) (idx : Nat) : DataFrame :=
  ⟨df.cols, df.rows.eraseIdx idx⟩

/-! ## The "Save Entry" button handler (source lines 154-164) -/

/-- `strftime("%Y-%m-%d %H:%M")` on a canonical timestamp text: its
first 16 characters. -/
def minuteKey (s : String) : String := ⟨s.data.take 16⟩

/-- One row's contribution to the duplicate test of source line 157:
`df["DateTime"].dt.strftime("%Y-%m-%d %H:%M") == entry` — a `NaT`
timestamp formats to `NaN`, which compares unequal to any string. -/
def dupAt (cols : List String) (r : List Cell) (dt : String) : Bool :=
  match getCell cols r "DateTime" with
  | some s => minuteKey s == minuteKey dt
  | none => false

/-- The "Save Entry" click handler: when some existing entry matches the
new timestamp at minute precision the entry is rejected (`st.error`) and
nothing is written; otherwise the row is appended and the frame saved.
The `Bool` result is `true` exactly when the entry was persisted. -/
def saveEntryClick (df : DataFrame) (fs : FS) (dt mood focus : String)
    (fields : List (String × String)) : FS × DataFrame × Bool :=
  let already := if df.rows.isEmpty then false
                 else df.rows.any (fun r => dupAt df.cols r dt)
  if already then (fs, df, false)
  else
    let df2 := add_entry df dt mood focus fields
    (save_data df2 fs, df2, true)

/-! ## Concrete frames for witnesses and counterexamples -/

/-- One fully-populated "Time Log" row over the canonical columns. -/
def sampleRow : List Cell :=
  ALL_COLUMNS_LIST.map (fun c =>
    if c = "DateTime" then some "2024-01-02 03:04:05"
    else if c = "Mood" then some "Happy"
    else if c = "Focus" then some "Time Log"
    else if c = "Name" then some "reading"
    else some "")

/-- A one-row canonical frame, as the app holds it in memory after
adding one "Time Log" entry. -/
def sampleDF : DataFrame := ⟨ALL_COLUMNS_LIST, [sampleRow]⟩

/-- A second frame differing from `sampleDF` in mood and timestamp. -/
def sampleDF2 : DataFrame :=
  ⟨ALL_COLUMNS_LIST,
   [ALL_COLUMNS_LIST.map (fun c =>
      if c = "DateTime" then some "2024-03-04 05:06:07"
      else if c = "Mood" then some "Calm"
      else if c = "Focus" then some "Time Log"
      else some "")]⟩

/-- `sampleDF` with the literal text "nan" in its `Notes` cell — a value
a user can type into the free-text Notes field. -/
def sampleDFnan : DataFrame :=
  ⟨ALL_COLUMNS_LIST,
   [ALL_COLUMNS_LIST.map (fun c =>
      if c = "DateTime" then some "2024-01-02 03:04:05"
      else if c = "Mood" then some "Happy"
      else if c = "Focus" then some "Time Log"
      else if c = "Notes" then some "nan"
      else some "")]⟩

/-- A cell acceptable in the `DateTime` column of a frame about to be
saved: missing, empty, or a canonical 19-character timestamp. -/
def validDTCell : Cell → Bool
  | none => true
  | some s => s == "" || isDateTimeChars s.data

/-- The cell at row `idx`, column `col` of a frame (pandas
`df.at[idx, col]` with positional labels). -/
def getCellAtRow (df : DataFrame) (idx : Nat) (col : String) : Cell :=
  match df.rows[idx]? with
  | some r => getCell df.cols r col
  | none => none

/-! ## Lemmas: positional column access -/

theorem ALL_COLUMNS_eq : ALL_COLUMNS = ALL_COLUMNS_LIST := by rfl

theorem cols_unique_eq : cols_unique = ALL_COLUMNS_LIST := by rfl

theorem ALL_COLUMNS_nodup : ALL_COLUMNS.Nodup := by
  rw [ALL_COLUMNS_eq]; decide

theorem getCell_not_mem (cols : List String) (xs : List Cell) (col : String)
    (h : col ∉ cols) : getCell cols xs col = none := by
  induction cols generalizing xs with
  | nil => cases xs <;> rfl
  | cons c cs ih =>
    cases xs with
    | nil => rfl
    | cons x xs' =>
      have hc : c ≠ col := fun he => h (he ▸ List.mem_cons_self c cs)
      simp only [getCell, hc, if_false]
      exact ih xs' (fun hm => h (List.mem_cons_of_mem c hm))

theorem getCell_setCell_ne (cols : List String) (xs : List Cell)
    (col col' : String) (v : Cell) (h : col' ≠ col) :
    getCell cols (setCell cols xs col v) col' = getCell cols xs col' := by
  induction cols generalizing xs with
  | nil => cases xs <;> rfl
  | cons c cs ih =>
    cases xs with
    | nil => rfl
    | cons x xs' =>
      by_cases hc : c = col'
      · subst hc
        simp [getCell, setCell, h]
      · simp [getCell, setCell, hc, ih xs']

theorem getCell_setCell_eq (cols : List String) (xs : List Cell)
    (col : String) (v : Cell) (hmem : col ∈ cols)
    (hlen : xs.length = cols.length) :
    getCell cols (setCell cols xs col v) col = v := by
  induction cols generalizing xs with
  | nil => exact absurd hmem (List.not_mem_nil col)
  | cons c cs ih =>
    cases xs with
    | nil => simp at hlen
    | cons x xs' =>
      by_cases hc : c = col
      · simp [getCell, setCell, hc]
      · have : col ∈ cs := by
          rcases List.mem_cons.mp hmem with h | h
          · exact absurd h.symm hc
          · exact h
        simp only [setCell, getCell, hc, if_false]
        exact ih xs' this (by simpa using hlen)

theorem setCell_length (cols : List String) (xs : List Cell)
    (col : String) (v : Cell) : (setCell cols xs col v).length = xs.length := by
  induction cols generalizing xs with
  | nil => cases xs <;> rfl
  | cons c cs ih => cases xs with
    | nil => rfl
    | cons x xs' => simp [setCell, ih xs']

theorem getCell_mapCellAt_ne (cols : List String) (xs : List Cell)
    (tgt col : String) (f : Cell → Cell) (h : col ≠ tgt) :
    getCell cols (mapCellAt cols xs tgt f) col = getCell cols xs col := by
  induction cols generalizing xs with
  | nil => cases xs <;> rfl
  | cons c cs ih =>
    cases xs with
    | nil => rfl
    | cons x xs' =>
      by_cases hc : c = col
      · subst hc
        have : c ≠ tgt := h
        simp [getCell, mapCellAt, this]
      · simp [getCell, mapCellAt, hc, ih xs']

theorem getCell_mapCellAt_eq (cols : List String) (xs : List Cell)
    (tgt : String) (f : Cell → Cell) (hmem : tgt ∈ cols)
    (hlen : xs.length = cols.length) :
    getCell cols (mapCellAt cols xs tgt f) tgt = f (getCell cols xs tgt) := by
  induction cols generalizing xs with
  | nil => exact absurd hmem (List.not_mem_nil tgt)
  | cons c cs ih =>
    cases xs with
    | nil => simp at hlen
    | cons x xs' =>
      by_cases hc : c = tgt
      · simp [getCell, mapCellAt, hc]
      · have : tgt ∈ cs := by
          rcases List.mem_cons.mp hmem with h | h
          · exact absurd h.symm hc
          · exact h
        simp only [mapCellAt, getCell, hc, if_false]
        exact ih xs' this (by simpa using hlen)

theorem mapCellAt_length (cols : List String) (xs : List Cell)
    (tgt : String) (f : Cell → Cell) :
    (mapCellAt cols xs tgt f).length = xs.length := by
  induction cols generalizing xs with
  | nil => cases xs <;> rfl
  | cons c cs ih => cases xs with
    | nil => rfl
    | cons x xs' => simp [mapCellAt, ih xs']

theorem mapCellAt_not_mem (cols : List String) (xs : List Cell)
    (tgt : String) (f : Cell → Cell) (h : tgt ∉ cols) :
    mapCellAt cols xs tgt f = xs := by
  induction cols generalizing xs with
  | nil => cases xs <;> rfl
  | cons c cs ih =>
    cases xs with
    | nil => rfl
    | cons x xs' =>
      have hc : c ≠ tgt := fun he => h (he ▸ List.mem_cons_self c cs)
      simp [mapCellAt, hc, ih xs' (fun hm => h (List.mem_cons_of_mem c hm))]

theorem mapCellAt_eq_self (cols : List String) (xs : List Cell)
    (tgt : String) (f : Cell → Cell) (hnd : cols.Nodup)
    (hlen : xs.length = cols.length)
    (hf : f (getCell cols xs tgt) = getCell cols xs tgt) :
    mapCellAt cols xs tgt f = xs := by
  induction cols generalizing xs with
  | nil => cases xs <;> rfl
  | cons c cs ih =>
    cases xs with
    | nil => rfl
    | cons x xs' =>
      by_cases hc : c = tgt
      · subst hc
        have hnotin : c ∉ cs := (List.nodup_cons.mp hnd).1
        have hfx : f x = x := by simpa [getCell] using hf
        simp [mapCellAt, hfx, mapCellAt_not_mem cs xs' c f hnotin]
      · have hf' : f (getCell cs xs' tgt) = getCell cs xs' tgt := by
          simpa [getCell, hc] using hf
        simp [mapCellAt, hc,
          ih xs' (List.nodup_cons.mp hnd).2 (by simpa using hlen) hf']

theorem getCell_map (cols : List String) (xs : List Cell) (col : String)
    (g : Cell → Cell) (hmem : col ∈ cols) (hlen : xs.length = cols.length) :
    getCell cols (xs.map g) col = g (getCell cols xs col) := by
  induction cols generalizing xs with
  | nil => exact absurd hmem (List.not_mem_nil col)
  | cons c cs ih =>
    cases xs with
    | nil => simp at hlen
    | cons x xs' =>
      by_cases hc : c = col
      · simp [getCell, hc]
      · have : col ∈ cs := by
          rcases List.mem_cons.mp hmem with h | h
          · exact absurd h.symm hc
          · exact h
        simp only [List.map_cons, getCell, hc, if_false]
        exact ih xs' this (by simpa using hlen)

theorem getCell_append (cols cols2 : List String) (xs xs2 : List Cell)
    (col : String) (hlen : xs.length = cols.length) :
    getCell (cols ++ cols2) (xs ++ xs2) col =
      if col ∈ cols then getCell cols xs col else getCell cols2 xs2 col := by
  induction cols generalizing xs with
  | nil =>
    cases xs with
    | nil => simp
    | cons _ _ => simp at hlen
  | cons c cs ih =>
    cases xs with
    | nil => simp at hlen
    | cons x xs' =>
      by_cases hc : c = col
      · simp [getCell, hc]
      · have hni : (col ∈ c :: cs) ↔ (col ∈ cs) := by
          constructor
          · intro h
            rcases List.mem_cons.mp h with h | h
            · exact absurd h.symm hc
            · exact h
          · exact fun h => List.mem_cons_of_mem c h
        simp only [List.cons_append, getCell, hc, if_false, hni]
        exact ih xs' (by simpa using hlen)

theorem getCell_all_eq (cols : List String) (xs : List Cell) (col : String)
    (v : Cell) (hmem : col ∈ cols) (hlen : xs.length = cols.length)
    (hall : ∀ x ∈ xs, x = v) : getCell cols xs col = v := by
  induction cols generalizing xs with
  | nil => exact absurd hmem (List.not_mem_nil col)
  | cons c cs ih =>
    cases xs with
    | nil => simp at hlen
    | cons x xs' =>
      by_cases hc : c = col
      · simp [getCell, hc, hall x (List.mem_cons_self x xs')]
      · have : col ∈ cs := by
          rcases List.mem_cons.mp hmem with h | h
          · exact absurd h.symm hc
          · exact h
        simp only [getCell, hc, if_false]
        exact ih xs' this (by simpa using hlen)
          (fun y hy => hall y (List.mem_cons_of_mem x hy))

theorem getCell_map_self (L : List String) (col : String) (f : String → Cell) :
    getCell L (L.map f) col = if col ∈ L then f col else none := by
  induction L with
  | nil => simp [getCell]
  | cons c cs ih =>
    by_cases hc : c = col
    · simp [getCell, hc]
    · have hni : (col ∈ c :: cs) ↔ (col ∈ cs) := by
        constructor
        · intro h
          rcases List.mem_cons.mp h with h | h
          · exact absurd h.symm hc
          · exact h
        · exact fun h => List.mem_cons_of_mem c h
      simp only [List.map_cons, getCell, hc, if_false, hni, ih]

theorem map_getCell_self (cols : List String) (xs : List Cell)
    (hnd : cols.Nodup) (hlen : xs.length = cols.length) :
    cols.map (getCell cols xs) = xs := by
  induction cols generalizing xs with
  | nil => cases xs with
    | nil => rfl
    | cons _ _ => simp at hlen
  | cons c cs ih =>
    cases xs with
    | nil => simp at hlen
    | cons x xs' =>
      have hnotin : c ∉ cs := (List.nodup_cons.mp hnd).1
      have htail : ∀ c' ∈ cs, getCell (c :: cs) (x :: xs') c' = getCell cs xs' c' := by
        intro c' hc'
        have : c ≠ c' := fun he => hnotin (he ▸ hc')
        simp [getCell, this]
      calc (c :: cs).map (getCell (c :: cs) (x :: xs'))
          = getCell (c :: cs) (x :: xs') c :: cs.map (getCell (c :: cs) (x :: xs')) := by
            simp
        _ = x :: cs.map (getCell cs xs') := by
            simp only [getCell, if_pos rfl]
            congr 1
            exact List.map_congr_left htail
        _ = x :: xs' := by
            rw [ih xs' (List.nodup_cons.mp hnd).2 (by simpa using hlen)]

/-! ## Lemmas: row update and frame surgery -/

theorem updateRowAt_length (rs : List (List Cell)) (n : Nat)
    (f : List Cell → List Cell) : (updateRowAt rs n f).length = rs.length := by
  induction rs generalizing n with
  | nil => rfl
  | cons r rs' ih => cases n with
    | zero => rfl
    | succ m => simp [updateRowAt, ih]

theorem updateRowAt_getElem_ne (rs : List (List Cell)) (n j : Nat)
    (f : List Cell → List Cell) (h : j ≠ n) :
    (updateRowAt rs n f)[j]? = rs[j]? := by
  induction rs generalizing n j with
  | nil => rfl
  | cons r rs' ih =>
    cases n with
    | zero =>
      cases j with
      | zero => exact absurd rfl h
      | succ i => simp [updateRowAt]
    | succ m =>
      cases j with
      | zero => simp [updateRowAt]
      | succ i =>
        simp only [updateRowAt, List.getElem?_cons_succ]
        exact ih m i (fun he => h (by simp [he]))

theorem updateRowAt_getElem_eq (rs : List (List Cell)) (n : Nat)
    (f : List Cell → List Cell) :
    (updateRowAt rs n f)[n]? = (rs[n]?).map f := by
  induction rs generalizing n with
  | nil => rfl
  | cons r rs' ih => cases n with
    | zero => simp [updateRowAt]
    | succ m => simp [updateRowAt, ih]

theorem backfill_eq_self (df : DataFrame) (L : List String)
    (h : ∀ c ∈ L, df.cols.contains c) : backfill df L = df := by
  induction L generalizing df with
  | nil => rfl
  | cons c cs ih =>
    have hc : df.cols.contains c := h c (List.mem_cons_self c cs)
    simp only [backfill, List.foldl_cons, hc, if_pos]
    exact ih df (fun c' hc' => h c' (List.mem_cons_of_mem c hc'))

theorem contains_append (a b : List String) (x : String) :
    (a ++ b).contains x = (a.contains x || b.contains x) := by
  by_cases h1 : x ∈ a <;> by_cases h2 : x ∈ b <;> simp [h1, h2]

theorem contains_iff_mem (a : List String) (x : String) :
    a.contains x = true ↔ x ∈ a := by simp

theorem cols_unique_nodup : cols_unique.Nodup := by
  rw [cols_unique_eq]; decide

theorem backfill_cols (L : List String) (df : DataFrame) (hnd : L.Nodup) :
    (backfill df L).cols = df.cols ++ L.filter (fun c => !df.cols.contains c) := by
  induction L generalizing df with
  | nil => simp [backfill]
  | cons c cs ih =>
    rcases List.nodup_cons.mp hnd with ⟨hcn, hcs⟩
    by_cases hc : df.cols.contains c = true
    · have hcm : c ∈ df.cols := (contains_iff_mem _ _).mp hc
      simp only [backfill, List.foldl_cons, hc, if_pos]
      rw [show (List.foldl (fun d c => if d.cols.contains c then d else addCol d c) df cs)
            = backfill df cs from rfl, ih df hcs]
      simp [List.filter_cons, hcm]
    · have hcm : c ∉ df.cols := fun hm => hc ((contains_iff_mem _ _).mpr hm)
      simp only [backfill, List.foldl_cons, hc, if_neg, Bool.false_eq_true,
        not_false_eq_true]
      rw [show (List.foldl (fun d c => if d.cols.contains c then d else addCol d c)
            (addCol df c) cs) = backfill (addCol df c) cs from rfl, ih (addCol df c) hcs]
      have hfc : cs.filter (fun x => !(addCol df c).cols.contains x)
          = cs.filter (fun x => !df.cols.contains x) := by
        apply List.filter_congr
        intro x hx
        have hxc : x ≠ c := fun he => hcn (he ▸ hx)
        simp [addCol, contains_append, List.contains, List.elem, hxc]
      rw [hfc]
      simp [addCol, List.filter_cons, hcm, List.append_assoc]

theorem backfill_rows (L : List String) (df : DataFrame) (hnd : L.Nodup) :
    (backfill df L).rows = df.rows.map
      (fun r => r ++ List.replicate
        (L.filter (fun c => !df.cols.contains c)).length (some "")) := by
  induction L generalizing df with
  | nil => simp [backfill]
  | cons c cs ih =>
    rcases List.nodup_cons.mp hnd with ⟨hcn, hcs⟩
    by_cases hc : df.cols.contains c = true
    · have hcm : c ∈ df.cols := (contains_iff_mem _ _).mp hc
      simp only [backfill, List.foldl_cons, hc, if_pos]
      rw [show (List.foldl (fun d c => if d.cols.contains c then d else addCol d c) df cs)
            = backfill df cs from rfl, ih df hcs]
      simp [List.filter_cons, hcm]
    · have hcm : c ∉ df.cols := fun hm => hc ((contains_iff_mem _ _).mpr hm)
      simp only [backfill, List.foldl_cons, hc, if_neg, Bool.false_eq_true,
        not_false_eq_true]
      rw [show (List.foldl (fun d c => if d.cols.contains c then d else addCol d c)
            (addCol df c) cs) = backfill (addCol df c) cs from rfl, ih (addCol df c) hcs]
      have hfc : cs.filter (fun x => !(addCol df c).cols.contains x)
          = cs.filter (fun x => !df.cols.contains x) := by
        apply List.filter_congr
        intro x hx
        have hxc : x ≠ c := fun he => hcn (he ▸ hx)
        simp [addCol, contains_append, List.contains, List.elem, hxc]
      rw [hfc]
      have hkeep : (c :: cs).filter (fun x => !df.cols.contains x)
          = c :: cs.filter (fun x => !df.cols.contains x) := by
        simp [List.filter_cons, hcm]
      rw [hkeep]
      simp only [addCol, List.map_map, List.length_cons]
      apply List.map_congr_left
      intro r _
      simp [Function.comp, List.replicate_succ, List.append_assoc]

theorem toDatetimeCol_colValues_dt (df : DataFrame)
    (hDT : "DateTime" ∈ df.cols)
    (hlen : ∀ r ∈ df.rows, r.length = df.cols.length) :
    colValues (toDatetimeCol df) "DateTime"
      = (colValues df "DateTime").map to_datetime_cell := by
  simp only [colValues, toDatetimeCol, List.map_map]
  apply List.map_congr_left
  intro r hr
  simp only [Function.comp]
  exact getCell_mapCellAt_eq df.cols r "DateTime" to_datetime_cell hDT (hlen r hr)

theorem toDatetimeCol_colValues_ne (df : DataFrame) (col : String)
    (h : col ≠ "DateTime") :
    colValues (toDatetimeCol df) col = colValues df col := by
  simp only [colValues, toDatetimeCol, List.map_map]
  apply List.map_congr_left
  intro r _
  simp only [Function.comp]
  exact getCell_mapCellAt_ne df.cols r "DateTime" col to_datetime_cell h

theorem load_post_colValues (df1 : DataFrame)
    (hDT : "DateTime" ∈ df1.cols)
    (hlen : ∀ r ∈ df1.rows, r.length = df1.cols.length)
    (col : String) (hcol : col ∈ cols_unique) :
    colValues (reindex (backfill (toDatetimeCol df1) cols_unique) cols_unique) col =
      if col ∈ df1.cols then
        (if col = "DateTime" then (colValues df1 col).map to_datetime_cell
         else colValues df1 col)
      else List.replicate df1.rows.length (some "") := by
  have hc2 : (toDatetimeCol df1).cols = df1.cols := rfl
  have hlen2 : ∀ r ∈ (toDatetimeCol df1).rows, r.length = (toDatetimeCol df1).cols.length := by
    intro r hr
    rcases List.mem_map.mp hr with ⟨r0, hr0, rfl⟩
    rw [mapCellAt_length, hc2]
    exact hlen r0 hr0
  have hbc := backfill_cols cols_unique (toDatetimeCol df1) cols_unique_nodup
  have hbr := backfill_rows cols_unique (toDatetimeCol df1) cols_unique_nodup
  have step1 : colValues (reindex (backfill (toDatetimeCol df1) cols_unique) cols_unique) col
      = (backfill (toDatetimeCol df1) cols_unique).rows.map
          (fun r => getCell (backfill (toDatetimeCol df1) cols_unique).cols r col) := by
    simp only [colValues, reindex, List.map_map]
    apply List.map_congr_left
    intro r _
    simp [Function.comp, getCell_map_self, hcol]
  rw [step1, hbr, hbc, List.map_map]
  by_cases hmem : col ∈ df1.cols
  · rw [if_pos hmem]
    have hstep : ((toDatetimeCol df1).rows.map
        ((fun r => getCell ((toDatetimeCol df1).cols ++
            cols_unique.filter (fun c => !(toDatetimeCol df1).cols.contains c)) r col) ∘
          (fun r => r ++ List.replicate
            (cols_unique.filter (fun c => !(toDatetimeCol df1).cols.contains c)).length
            (some ""))))
        = colValues (toDatetimeCol df1) col := by
      apply List.map_congr_left
      intro r hr
      simp only [Function.comp]
      rw [getCell_append _ _ _ _ _ (hlen2 r hr)]
      rw [hc2, if_pos hmem]
    rw [hstep]
    by_cases hdt : col = "DateTime"
    · subst hdt
      rw [if_pos rfl]
      exact toDatetimeCol_colValues_dt df1 hDT hlen
    · rw [if_neg hdt]
      exact toDatetimeCol_colValues_ne df1 col hdt
  · rw [if_neg hmem]
    have hcontains : (toDatetimeCol df1).cols.contains col = false := by
      rw [hc2]
      cases h : df1.cols.contains col with
      | false => rfl
      | true => exact absurd ((contains_iff_mem _ _).mp h) hmem
    have hadded : col ∈ cols_unique.filter (fun c => !(toDatetimeCol df1).cols.contains c) := by
      apply List.mem_filter.mpr
      exact ⟨hcol, by rw [hcontains]; rfl⟩
    have hstep : ((toDatetimeCol df1).rows.map
        ((fun r => getCell ((toDatetimeCol df1).cols ++
            cols_unique.filter (fun c => !(toDatetimeCol df1).cols.contains c)) r col) ∘
          (fun r => r ++ List.replicate
            (cols_unique.filter (fun c => !(toDatetimeCol df1).cols.contains c)).length
            (some ""))))
        = (toDatetimeCol df1).rows.map (fun _ => some "") := by
      apply List.map_congr_left
      intro r hr
      simp only [Function.comp]
      rw [getCell_append _ _ _ _ _ (hlen2 r hr)]
      rw [hc2, if_neg hmem]
      exact getCell_all_eq _ _ col (some "") hadded
        (by rw [List.length_replicate])
        (fun x hx => List.eq_of_mem_replicate hx)
    rw [hstep]
    have : (toDatetimeCol df1).rows.length = df1.rows.length := by
      simp [toDatetimeCol]
    rw [List.map_const']
    rw [this]

/-! ## Lemmas: the CSV tokenizer on unquoted content -/

theorem plainChar_split (c : Char) (h : plainChar c = true) :
    (c == ',') = false ∧ (c == '\"') = false ∧
    (c == '\n') = false ∧ (c == '\r') = false := by
  simp only [plainChar, Bool.not_eq_eq_eq_not, Bool.not_true, Bool.or_eq_false_iff] at h
  exact ⟨h.1.1.1, h.1.1.2, h.1.2, h.2⟩

theorem unquoteField_plain (f : List Char)
    (h : ∀ c ∈ f, (c == '\"') = false) : unquoteField f = f := by
  cases f with
  | nil => rfl
  | cons c rest =>
    have hc : c ≠ '\"' := by
      have := h c (List.mem_cons_self c rest)
      simpa using this
    simp [unquoteField, hc]

theorem splitQA_plain_single (sep : Char) (x : List Char)
    (h : ∀ c ∈ x, (c == sep) = false ∧ (c == '\"') = false) :
    splitQA sep false x = [x] := by
  induction x with
  | nil => rfl
  | cons c rest ih =>
    obtain ⟨h1, h2⟩ := h c (List.mem_cons_self c rest)
    have ih' := ih (fun c' hc' => h c' (List.mem_cons_of_mem c hc'))
    simp [splitQA, h1, h2, ih']

theorem splitQA_plain_cons (sep : Char) (x t : List Char)
    (h : ∀ c ∈ x, (c == sep) = false ∧ (c == '\"') = false) :
    splitQA sep false (x ++ sep :: t) = x :: splitQA sep false t := by
  induction x with
  | nil => simp [splitQA]
  | cons c rest ih =>
    obtain ⟨h1, h2⟩ := h c (List.mem_cons_self c rest)
    have ih' := ih (fun c' hc' => h c' (List.mem_cons_of_mem c hc'))
    simp [splitQA, h1, h2, ih']

theorem splitQA_joinSep (sep : Char) (xs : List (List Char)) (hne : xs ≠ [])
    (h : ∀ x ∈ xs, ∀ c ∈ x, (c == sep) = false ∧ (c == '\"') = false) :
    splitQA sep false (joinSep sep xs) = xs := by
  induction xs with
  | nil => exact absurd rfl hne
  | cons x xs' ih =>
    cases xs' with
    | nil => exact splitQA_plain_single sep x (h x (List.mem_cons_self x []))
    | cons y ys =>
      have : joinSep sep (x :: y :: ys) = x ++ sep :: joinSep sep (y :: ys) := rfl
      rw [this, splitQA_plain_cons sep x _ (h x (List.mem_cons_self x (y :: ys)))]
      rw [ih (by simp) (fun x' hx' c hc => h x' (List.mem_cons_of_mem x hx') c hc)]

theorem joinSep_snoc_nil (sep : Char) (xs : List (List Char)) (h : xs ≠ []) :
    joinSep sep (xs ++ [[]]) = joinSep sep xs ++ [sep] := by
  induction xs with
  | nil => exact absurd rfl h
  | cons x xs' ih =>
    cases xs' with
    | nil => simp [joinSep]
    | cons y ys =>
      have ih' := ih (by simp)
      have e1 : joinSep sep ((x :: y :: ys) ++ [[]])
          = x ++ sep :: joinSep sep ((y :: ys) ++ [[]]) := rfl
      have e2 : joinSep sep (x :: y :: ys) = x ++ sep :: joinSep sep (y :: ys) := rfl
      rw [e1, e2, ih']
      simp

theorem joinSep_two_ne_nil (sep : Char) (x y : List Char)
    (ys : List (List Char)) : joinSep sep (x :: y :: ys) ≠ [] := by
  simp [joinSep]

theorem mem_joinSep (sep : Char) (xs : List (List Char)) (c : Char)
    (h : c ∈ joinSep sep xs) : c = sep ∨ ∃ x ∈ xs, c ∈ x := by
  induction xs with
  | nil => simp [joinSep] at h
  | cons x xs' ih =>
    cases xs' with
    | nil =>
      right
      exact ⟨x, List.mem_cons_self x [], h⟩
    | cons y ys =>
      have : joinSep sep (x :: y :: ys) = x ++ sep :: joinSep sep (y :: ys) := rfl
      rw [this] at h
      rcases List.mem_append.mp h with h | h
      · exact Or.inr ⟨x, List.mem_cons_self x (y :: ys), h⟩
      · rcases List.mem_cons.mp h with h | h
        · exact Or.inl h
        · rcases ih h with h | ⟨x', hx', hc⟩
          · exact Or.inl h
          · exact Or.inr ⟨x', List.mem_cons_of_mem x hx', hc⟩

theorem csvField_plain (l : List Char) (h : l.all plainChar = true) :
    csvField l = l := by
  simp [csvField, h]

theorem unescQuotes_escQuotes (l : List Char) :
    unescQuotes (escQuotes l) = l := by
  induction l with
  | nil => rfl
  | cons c r ih =>
    by_cases hc : c = '\"'
    · subst hc
      have he : escQuotes ('\"' :: r) = '\"' :: '\"' :: escQuotes r := by
        simp [escQuotes]
      rw [he]
      show '\"' :: unescQuotes (escQuotes r) = '\"' :: r
      rw [ih]
    · have hb : (c == '\"') = false := by
        cases hbb : c == '\"' with
        | false => rfl
        | true => exact absurd (by simpa using hbb) hc
      have he : escQuotes (c :: r) = c :: escQuotes r := by
        simp [escQuotes, hb]
      rw [he]
      have hu : unescQuotes (c :: escQuotes r) = c :: unescQuotes (escQuotes r) := by
        simp [unescQuotes, hc]
      rw [hu, ih]

theorem unquoteField_csvField (l : List Char) :
    unquoteField (csvField l) = l := by
  by_cases hp : l.all plainChar = true
  · rw [csvField_plain l hp]
    apply unquoteField_plain
    intro c hc
    exact (plainChar_split c (List.all_eq_true.mp hp c hc)).2.1
  · have hcf : csvField l = '\"' :: (escQuotes l ++ ['\"']) := by
      simp [csvField, hp]
    rw [hcf]
    show unescQuotes ((escQuotes l ++ ['\"']).dropLast) = l
    rw [show (escQuotes l ++ ['\"']).dropLast = escQuotes l by simp]
    exact unescQuotes_escQuotes l

theorem scanQ_append (a b : List Char) : ∀ inQ : Bool,
    scanQ inQ (a ++ b) = scanQ (scanQ inQ a) b := by
  induction a with
  | nil => intro inQ; rfl
  | cons c a' ih => intro inQ; exact ih _

theorem noUnqSep_append (sep : Char) (a b : List Char) : ∀ inQ : Bool,
    noUnqSep sep inQ (a ++ b)
      = (noUnqSep sep inQ a && noUnqSep sep (scanQ inQ a) b) := by
  induction a with
  | nil => intro inQ; rfl
  | cons c a' ih =>
    intro inQ
    show ((!(c == sep) || inQ) && noUnqSep sep _ (a' ++ b)) = _
    rw [ih]
    rw [← Bool.and_assoc]
    rfl

theorem scanQ_no_quote (l : List Char) (h : ∀ c ∈ l, (c == '\"') = false) :
    ∀ inQ : Bool, scanQ inQ l = inQ := by
  induction l with
  | nil => intro inQ; rfl
  | cons c l' ih =>
    intro inQ
    have hc := h c (List.mem_cons_self c l')
    show scanQ (if c == '\"' then !inQ else inQ) l' = inQ
    rw [hc]
    exact ih (fun c' hc' => h c' (List.mem_cons_of_mem c hc')) inQ

theorem noUnqSep_no_sep (sep : Char) (l : List Char)
    (h : ∀ c ∈ l, (c == sep) = false) :
    ∀ inQ : Bool, noUnqSep sep inQ l = true := by
  induction l with
  | nil => intro inQ; rfl
  | cons c l' ih =>
    intro inQ
    have hc := h c (List.mem_cons_self c l')
    show ((!(c == sep) || inQ) && noUnqSep sep _ l') = true
    rw [hc, ih (fun c' hc' => h c' (List.mem_cons_of_mem c hc'))]
    rfl

theorem scanQ_escQuotes (l : List Char) :
    scanQ true (escQuotes l) = true := by
  induction l with
  | nil => rfl
  | cons c l' ih =>
    by_cases hc : c = '\"'
    · subst hc
      have he : escQuotes ('\"' :: l') = '\"' :: '\"' :: escQuotes l' := by
        simp [escQuotes]
      rw [he]
      show scanQ (if '\"' == '\"' then !true else true)
          ('\"' :: escQuotes l') = true
      simp only [beq_self_eq_true, if_true, Bool.not_true]
      show scanQ (if '\"' == '\"' then !false else false) (escQuotes l') = true
      simp only [beq_self_eq_true, if_true, Bool.not_false]
      exact ih
    · have hb : (c == '\"') = false := by
        cases hbb : c == '\"' with
        | false => rfl
        | true => exact absurd (by simpa using hbb) hc
      have he : escQuotes (c :: l') = c :: escQuotes l' := by
        simp [escQuotes, hb]
      rw [he]
      show scanQ (if c == '\"' then !true else true) (escQuotes l') = true
      rw [hb]
      exact ih

theorem noUnqSep_escQuotes (sep : Char) (hq : ('\"' == sep) = false)
    (l : List Char) : noUnqSep sep true (escQuotes l) = true := by
  induction l with
  | nil => rfl
  | cons c l' ih =>
    by_cases hc : c = '\"'
    · subst hc
      have he : escQuotes ('\"' :: l') = '\"' :: '\"' :: escQuotes l' := by
        simp [escQuotes]
      rw [he]
      show ((!('\"' == sep) || true) &&
        noUnqSep sep (if '\"' == '\"' then !true else true)
          ('\"' :: escQuotes l')) = true
      simp only [beq_self_eq_true, if_true, Bool.not_true, Bool.or_true,
        Bool.true_and]
      show ((!('\"' == sep) || false) &&
        noUnqSep sep (if '\"' == '\"' then !false else false)
          (escQuotes l')) = true
      simp only [beq_self_eq_true, if_true, Bool.not_false, Bool.or_false, hq,
        Bool.not_false, Bool.true_and]
      exact ih
    · have hb : (c == '\"') = false := by
        cases hbb : c == '\"' with
        | false => rfl
        | true => exact absurd (by simpa using hbb) hc
      have he : escQuotes (c :: l') = c :: escQuotes l' := by
        simp [escQuotes, hb]
      rw [he]
      show ((!(c == sep) || true) &&
        noUnqSep sep (if c == '\"' then !true else true) (escQuotes l')) = true
      rw [hb]
      simp only [Bool.or_true, Bool.true_and, if_false, Bool.false_eq_true]
      exact ih

theorem splitQA_balanced_cons (sep : Char) (x : List Char) :
    ∀ (inQ : Bool) (t : List Char),
    noUnqSep sep inQ x = true → scanQ inQ x = false →
    splitQA sep inQ (x ++ sep :: t) = x :: splitQA sep false t := by
  induction x with
  | nil =>
    intro inQ t hn hs
    have hinq : inQ = false := hs
    subst hinq
    simp [splitQA]
  | cons c x' ih =>
    intro inQ t hn hs
    have hn' : ((!(c == sep) || inQ) &&
        noUnqSep sep (if c == '\"' then !inQ else inQ) x') = true := hn
    simp only [Bool.and_eq_true] at hn'
    obtain ⟨h1, h2⟩ := hn'
    have hs' : scanQ (if c == '\"' then !inQ else inQ) x' = false := hs
    have hcond : (c == sep && !inQ) = false := by
      cases hcs : c == sep with
      | false => simp
      | true =>
        have hin : inQ = true := by simpa [hcs] using h1
        simp [hin]
    have ih' := ih (if c == '\"' then !inQ else inQ) t h2 hs'
    simp only [beq_iff_eq] at ih'
    rw [List.cons_append]
    simp [splitQA, hcond, ih']

theorem splitQA_balanced_single (sep : Char) (x : List Char) :
    ∀ inQ : Bool,
    noUnqSep sep inQ x = true → scanQ inQ x = false →
    splitQA sep inQ x = [x] := by
  induction x with
  | nil => intro inQ _ _; rfl
  | cons c x' ih =>
    intro inQ hn hs
    have hn' : ((!(c == sep) || inQ) &&
        noUnqSep sep (if c == '\"' then !inQ else inQ) x') = true := hn
    simp only [Bool.and_eq_true] at hn'
    obtain ⟨h1, h2⟩ := hn'
    have hs' : scanQ (if c == '\"' then !inQ else inQ) x' = false := hs
    have hcond : (c == sep && !inQ) = false := by
      cases hcs : c == sep with
      | false => simp
      | true =>
        have hin : inQ = true := by simpa [hcs] using h1
        simp [hin]
    have ih' := ih (if c == '\"' then !inQ else inQ) h2 hs'
    simp only [beq_iff_eq] at ih'
    simp [splitQA, hcond, ih']

theorem splitQA_joinSep_balanced (sep : Char) (xs : List (List Char))
    (hne : xs ≠ [])
    (h : ∀ x ∈ xs, noUnqSep sep false x = true ∧ scanQ false x = false) :
    splitQA sep false (joinSep sep xs) = xs := by
  induction xs with
  | nil => exact absurd rfl hne
  | cons x xs' ih =>
    cases xs' with
    | nil =>
      obtain ⟨h1, h2⟩ := h x (List.mem_cons_self x [])
      exact splitQA_balanced_single sep x false h1 h2
    | cons y ys =>
      have hj : joinSep sep (x :: y :: ys) = x ++ sep :: joinSep sep (y :: ys) := rfl
      obtain ⟨h1, h2⟩ := h x (List.mem_cons_self x (y :: ys))
      rw [hj, splitQA_balanced_cons sep x false _ h1 h2]
      rw [ih (by simp) (fun x' hx' => h x' (List.mem_cons_of_mem x hx'))]

theorem scanQ_joinSep (sep : Char) (hq : (sep == '\"') = false)
    (xs : List (List Char)) (h : ∀ x ∈ xs, scanQ false x = false) :
    scanQ false (joinSep sep xs) = false := by
  induction xs with
  | nil => rfl
  | cons x xs' ih =>
    cases xs' with
    | nil => exact h x (List.mem_cons_self x [])
    | cons y ys =>
      have hj : joinSep sep (x :: y :: ys) = x ++ sep :: joinSep sep (y :: ys) := rfl
      rw [hj, scanQ_append]
      rw [h x (List.mem_cons_self x (y :: ys))]
      show scanQ (if sep == '\"' then !false else false) (joinSep sep (y :: ys)) = false
      rw [hq]
      exact ih (fun x' hx' => h x' (List.mem_cons_of_mem x hx'))

theorem noUnqSep_joinSep (sepO sepJ : Char)
    (hne : (sepJ == sepO) = false) (hq : (sepJ == '\"') = false)
    (xs : List (List Char))
    (h : ∀ x ∈ xs, noUnqSep sepO false x = true ∧ scanQ false x = false) :
    noUnqSep sepO false (joinSep sepJ xs) = true := by
  induction xs with
  | nil => rfl
  | cons x xs' ih =>
    cases xs' with
    | nil => exact (h x (List.mem_cons_self x [])).1
    | cons y ys =>
      have hj : joinSep sepJ (x :: y :: ys) = x ++ sepJ :: joinSep sepJ (y :: ys) := rfl
      obtain ⟨h1, h2⟩ := h x (List.mem_cons_self x (y :: ys))
      rw [hj, noUnqSep_append, h1]
      rw [h2]
      show (true && ((!(sepJ == sepO) || false) &&
        noUnqSep sepO (if sepJ == '\"' then !false else false)
          (joinSep sepJ (y :: ys)))) = true
      rw [hne, hq]
      show noUnqSep sepO false (joinSep sepJ (y :: ys)) = true
      exact ih (fun x' hx' => h x' (List.mem_cons_of_mem x hx'))

theorem csvField_scanQ (l : List Char) :
    scanQ false (csvField l) = false := by
  by_cases hp : l.all plainChar = true
  · rw [csvField_plain l hp]
    exact scanQ_no_quote l
      (fun c hc => (plainChar_split c (List.all_eq_true.mp hp c hc)).2.1) false
  · have hcf : csvField l = '\"' :: (escQuotes l ++ ['\"']) := by
      simp [csvField, hp]
    rw [hcf]
    show scanQ (if '\"' == '\"' then !false else false)
      (escQuotes l ++ ['\"']) = false
    simp only [beq_self_eq_true, if_true, Bool.not_false]
    rw [scanQ_append, scanQ_escQuotes]
    rfl

theorem csvField_noUnqSep (sep : Char) (hq : ('\"' == sep) = false)
    (hps : ∀ c : Char, plainChar c = true → (c == sep) = false)
    (l : List Char) : noUnqSep sep false (csvField l) = true := by
  by_cases hp : l.all plainChar = true
  · rw [csvField_plain l hp]
    exact noUnqSep_no_sep sep l
      (fun c hc => hps c (List.all_eq_true.mp hp c hc)) false
  · have hcf : csvField l = '\"' :: (escQuotes l ++ ['\"']) := by
      simp [csvField, hp]
    rw [hcf]
    show ((!('\"' == sep) || false) &&
      noUnqSep sep (if '\"' == '\"' then !false else false)
        (escQuotes l ++ ['\"'])) = true
    simp only [beq_self_eq_true, if_true, Bool.not_false, Bool.or_false, hq,
      Bool.not_false, Bool.true_and]
    rw [noUnqSep_append, noUnqSep_escQuotes sep hq, scanQ_escQuotes]
    show (true && ((!('\"' == sep) || true) && true)) = true
    simp

theorem renderCell_scanQ (c : Cell) :
    scanQ false (renderCell c) = false := by
  cases c with
  | none => rfl
  | some s => exact csvField_scanQ s.data

theorem renderCell_noUnqSep (sep : Char) (hq : ('\"' == sep) = false)
    (hps : ∀ c : Char, plainChar c = true → (c == sep) = false)
    (c : Cell) : noUnqSep sep false (renderCell c) = true := by
  cases c with
  | none => rfl
  | some s => exact csvField_noUnqSep sep hq hps s.data


theorem parseField_renderCell (c : Cell) :
    parseField (renderCell c) = normCell c := by
  cases c with
  | none => rfl
  | some s =>
    show parseField (csvField s.data) = normCell (some s)
    show (if NA_TOKENS.contains (⟨unquoteField (csvField s.data)⟩ : String)
        then none
        else some (⟨unquoteField (csvField s.data)⟩ : String)) = normCell (some s)
    rw [unquoteField_csvField s.data]
    obtain ⟨l⟩ := s
    rfl

theorem read_csv_of_split (s : String) (hne : s.data.isEmpty = false)
    (hl : List Char) (rls : List (List Char))
    (hsplit : (splitQA '\n' false s.data).filter (fun l => !l.isEmpty) = hl :: rls) :
    read_csv s =
      (if (rls.map (fun l => (splitQA ',' false l).map parseField)).any
          (fun r => ((splitQA ',' false hl).map
            (fun f => (⟨unquoteField f⟩ : String))).length < r.length)
       then .error .parserError
       else .ok ⟨(splitQA ',' false hl).map (fun f => (⟨unquoteField f⟩ : String)),
          (rls.map (fun l => (splitQA ',' false l).map parseField)).map
            (fun r => r ++ List.replicate
              (((splitQA ',' false hl).map
                (fun f => (⟨unquoteField f⟩ : String))).length - r.length) none)⟩) := by
  unfold read_csv
  rw [hsplit]
  simp [hne]

theorem read_csv_to_csv (df : DataFrame)
    (hclen : 2 ≤ df.cols.length)
    (hrlen : ∀ r ∈ df.rows, r.length = df.cols.length) :
    read_csv (to_csv df) = .ok ⟨df.cols, df.rows.map (List.map normCell)⟩ := by
  obtain ⟨c1, c2, cs, hcols⟩ : ∃ c1 c2 cs, df.cols = c1 :: c2 :: cs := by
    cases hc : df.cols with
    | nil => rw [hc] at hclen; simp at hclen
    | cons a t =>
      cases t with
      | nil => rw [hc] at hclen; simp at hclen
      | cons b u => exact ⟨a, b, u, rfl⟩
  have hq1 : (('\"' : Char) == ',') = false := by decide
  have hq2 : (('\"' : Char) == '\n') = false := by decide
  have hps1 : ∀ c : Char, plainChar c = true → (c == ',') = false :=
    fun c hc => (plainChar_split c hc).1
  have hps2 : ∀ c : Char, plainChar c = true → (c == '\n') = false :=
    fun c hc => (plainChar_split c hc).2.2.1
  have hfield : ∀ c : Cell,
      noUnqSep ',' false (renderCell c) = true ∧
      noUnqSep '\n' false (renderCell c) = true ∧
      scanQ false (renderCell c) = false :=
    fun c => ⟨renderCell_noUnqSep ',' hq1 hps1 c,
      renderCell_noUnqSep '\n' hq2 hps2 c, renderCell_scanQ c⟩
  have hhfield : ∀ s : String,
      noUnqSep ',' false (csvField s.data) = true ∧
      noUnqSep '\n' false (csvField s.data) = true ∧
      scanQ false (csvField s.data) = false :=
    fun s => ⟨csvField_noUnqSep ',' hq1 hps1 s.data,
      csvField_noUnqSep '\n' hq2 hps2 s.data, csvField_scanQ s.data⟩
  have hline : ∀ chunks : List (List Char),
      (∀ x ∈ chunks, noUnqSep ',' false x = true ∧
        noUnqSep '\n' false x = true ∧ scanQ false x = false) →
      noUnqSep '\n' false (joinSep ',' chunks) = true ∧
      scanQ false (joinSep ',' chunks) = false := by
    intro chunks h
    refine ⟨noUnqSep_joinSep '\n' ',' (by decide) (by decide) chunks
        (fun x hx => ⟨(h x hx).2.1, (h x hx).2.2⟩),
      scanQ_joinSep ',' (by decide) chunks (fun x hx => (h x hx).2.2)⟩
  have hlne : joinSep ',' (df.cols.map (fun c => csvField c.data)) ≠ [] := by
    rw [hcols]
    exact joinSep_two_ne_nil ',' _ _ _
  have hrowne : ∀ r ∈ df.rows, joinSep ',' (r.map renderCell) ≠ [] := by
    intro r hr
    have : r.length = df.cols.length := hrlen r hr
    rw [hcols] at this
    obtain ⟨x1, x2, xs, hre⟩ : ∃ x1 x2 xs, r = x1 :: x2 :: xs := by
      cases hr0 : r with
      | nil => rw [hr0] at this; simp at this
      | cons a t =>
        cases t with
        | nil => rw [hr0] at this; simp at this
        | cons b u => exact ⟨a, b, u, rfl⟩
    rw [hre]
    exact joinSep_two_ne_nil ',' _ _ _
  have hne : (to_csv df).data.isEmpty = false := by
    have : (to_csv df).data
        = joinSep '\n'
            (joinSep ',' (df.cols.map (fun c => csvField c.data))
              :: df.rows.map (fun r => joinSep ',' (r.map renderCell))) ++ ['\n'] := rfl
    rw [this]
    simp [List.isEmpty_iff]
  have hlinebal : ∀ x ∈ (joinSep ',' (df.cols.map (fun c => csvField c.data))
        :: df.rows.map (fun r => joinSep ',' (r.map renderCell))) ++ [[]],
      noUnqSep '\n' false x = true ∧ scanQ false x = false := by
    intro x hx
    rcases List.mem_append.mp hx with hx | hx
    · rcases List.mem_cons.mp hx with hx | hx
      · subst hx
        refine hline _ ?hdr
        intro x hx
        rcases List.mem_map.mp hx with ⟨c, hc, rfl⟩
        exact hhfield c
      · rcases List.mem_map.mp hx with ⟨r, hr, rfl⟩
        refine hline _ ?row
        intro x hx
        rcases List.mem_map.mp hx with ⟨c, hc, rfl⟩
        exact hfield c
    · rcases List.mem_singleton.mp hx with rfl
      exact ⟨rfl, rfl⟩
  have hsplit : (splitQA '\n' false (to_csv df).data).filter (fun l => !l.isEmpty)
      = joinSep ',' (df.cols.map (fun c => csvField c.data))
          :: df.rows.map (fun r => joinSep ',' (r.map renderCell)) := by
    have hdata : (to_csv df).data
        = joinSep '\n'
            (joinSep ',' (df.cols.map (fun c => csvField c.data))
              :: df.rows.map (fun r => joinSep ',' (r.map renderCell))) ++ ['\n'] := rfl
    rw [hdata, ← joinSep_snoc_nil '\n' _ (by simp),
      splitQA_joinSep_balanced '\n' _ (by simp) hlinebal, List.filter_append]
    have h1 : (List.filter (fun l => !l.isEmpty) [([] : List Char)]) = [] := rfl
    rw [h1, List.append_nil]
    apply List.filter_eq_self.mpr
    intro l hl
    rcases List.mem_cons.mp hl with hl | hl
    · subst hl
      simpa [List.isEmpty_iff] using hlne
    · rcases List.mem_map.mp hl with ⟨r, hr, rfl⟩
      simpa [List.isEmpty_iff] using hrowne r hr
  rw [read_csv_of_split (to_csv df) hne _ _ hsplit]
  have hheader : (splitQA ',' false
        (joinSep ',' (df.cols.map (fun c => csvField c.data)))).map
        (fun f => (⟨unquoteField f⟩ : String)) = df.cols := by
    rw [splitQA_joinSep_balanced ',' (df.cols.map (fun c => csvField c.data))
        (by rw [hcols]; simp)
        (by
          intro x hx
          rcases List.mem_map.mp hx with ⟨c, hc, rfl⟩
          exact ⟨(hhfield c).1, (hhfield c).2.2⟩),
      List.map_map]
    have : ∀ c ∈ df.cols,
        ((fun f => (⟨unquoteField f⟩ : String)) ∘ (fun c => csvField c.data)) c
          = id c := by
      intro c hc
      simp only [Function.comp, id]
      rw [unquoteField_csvField c.data]
    rw [List.map_congr_left this, List.map_id]
  have hrows : (df.rows.map (fun r => joinSep ',' (r.map renderCell))).map
      (fun l => (splitQA ',' false l).map parseField)
      = df.rows.map (List.map normCell) := by
    rw [List.map_map]
    apply List.map_congr_left
    intro r hr
    simp only [Function.comp]
    rw [splitQA_joinSep_balanced ',' (r.map renderCell)
        (by
          intro h
          exact hrowne r hr (by rw [show joinSep ',' (r.map renderCell)
            = joinSep ',' ([] : List (List Char)) from h ▸ rfl]; rfl))
        (by
          intro x hx
          rcases List.mem_map.mp hx with ⟨c, hc, rfl⟩
          exact ⟨(hfield c).1, (hfield c).2.2⟩),
      List.map_map]
    apply List.map_congr_left
    intro c hc
    simp only [Function.comp]
    exact parseField_renderCell c
  rw [hrows, hheader]
  have hany : (df.rows.map (List.map normCell)).any
      (fun r => df.cols.length < r.length) = false := by
    rw [List.any_eq_false]
    intro r hr
    rcases List.mem_map.mp hr with ⟨r0, hr0, rfl⟩
    simp [hrlen r0 hr0]
  rw [hany]
  simp only [Bool.false_eq_true, if_false]
  have hpad : ∀ r ∈ df.rows.map (List.map normCell),
      r ++ List.replicate (df.cols.length - r.length) (none : Cell) = r := by
    intro r hr
    rcases List.mem_map.mp hr with ⟨r0, hr0, rfl⟩
    simp [hrlen r0 hr0]
  have hpadmap : (df.rows.map (List.map normCell)).map
        (fun r => r ++ List.replicate (df.cols.length - r.length) none)
      = df.rows.map (List.map normCell) := by
    calc (df.rows.map (List.map normCell)).map
          (fun r => r ++ List.replicate (df.cols.length - r.length) none)
        = (df.rows.map (List.map normCell)).map id := List.map_congr_left hpad
      _ = df.rows.map (List.map normCell) := List.map_id _
  rw [hpadmap]

theorem read_csv_ok_row_lengths (s : String) (df : DataFrame)
    (h : read_csv s = .ok df) : ∀ r ∈ df.rows, r.length = df.cols.length := by
  by_cases he : s.data.isEmpty = true
  · rw [show read_csv s = .error .emptyData from by unfold read_csv; simp [he]] at h
    simp at h
  · have he' : s.data.isEmpty = false := by
      cases hb : s.data.isEmpty with
      | false => rfl
      | true => exact absurd hb he
    cases hsp : (splitQA '\n' false s.data).filter (fun l => !l.isEmpty) with
    | nil =>
      rw [show read_csv s = .error .emptyData from by
        unfold read_csv; rw [hsp]; simp [he']] at h
      simp at h
    | cons hl rest =>
      rw [read_csv_of_split s he' hl rest hsp] at h
      split at h
      · simp at h
      · rename_i hany
        rw [Except.ok.injEq] at h
        subst h
        intro r hr
        simp only [List.mem_map] at hr
        obtain ⟨r0, ⟨a, ha, rfl⟩, rfl⟩ := hr
        have hle : ((splitQA ',' false a).map parseField).length
            ≤ ((splitQA ',' false hl).map
              (fun f => (⟨unquoteField f⟩ : String))).length := by
          by_contra hgt
          push_neg at hgt
          exact hany (List.any_eq_true.mpr
            ⟨(splitQA ',' false a).map parseField,
             List.mem_map.mpr ⟨a, ha, rfl⟩, by simpa using hgt⟩)
        simp only [List.length_append, List.length_replicate]
        omega

theorem renameDateCol_eq_self (df : DataFrame) (h : "DateTime" ∈ df.cols) :
    renameDateCol df = df := by
  have hc : df.cols.contains "DateTime" = true := (contains_iff_mem _ _).mpr h
  unfold renameDateCol
  rw [hc]
  rfl

theorem toDatetimeCol_eq_self (df : DataFrame) (hnd : df.cols.Nodup)
    (hlen : ∀ r ∈ df.rows, r.length = df.cols.length)
    (hvals : ∀ r ∈ df.rows,
      to_datetime_cell (getCell df.cols r "DateTime")
        = getCell df.cols r "DateTime") :
    toDatetimeCol df = df := by
  cases df with
  | mk cols rows =>
    simp only [toDatetimeCol, DataFrame.mk.injEq, true_and]
    calc rows.map (fun r => mapCellAt cols r "DateTime" to_datetime_cell)
        = rows.map id := by
          apply List.map_congr_left
          intro r hr
          exact mapCellAt_eq_self cols r "DateTime" to_datetime_cell hnd
            (hlen r hr) (hvals r hr)
      _ = rows := List.map_id rows

theorem reindex_self (df : DataFrame) (hnd : df.cols.Nodup)
    (hlen : ∀ r ∈ df.rows, r.length = df.cols.length) :
    reindex df df.cols = df := by
  cases df with
  | mk cols rows =>
    simp only [reindex, DataFrame.mk.injEq, true_and]
    calc rows.map (fun r => cols.map (getCell cols r))
        = rows.map id := by
          apply List.map_congr_left
          intro r hr
          exact map_getCell_self cols r hnd (hlen r hr)
      _ = rows := List.map_id rows

theorem td_normCell (c : Cell) (h : validDTCell c = true) :
    to_datetime_cell (normCell c) = normCell c := by
  cases c with
  | none => rfl
  | some s =>
    by_cases hna : NA_TOKENS.contains s = true
    · have hm : s ∈ NA_TOKENS := (contains_iff_mem _ _).mp hna
      simp [normCell, hm, to_datetime_cell]
    · have hs : s ≠ "" := by
        intro he
        rw [he] at hna
        exact absurd (by decide) hna
      have hne : (s == "") = false := by
        cases hb : s == "" with
        | false => rfl
        | true => exact absurd (by simpa using hb) hs
      have hv : isDateTimeChars s.data = true := by
        have h' := h
        simp only [validDTCell, hne, Bool.false_or] at h'
        exact h'
      have hm : s ∉ NA_TOKENS := fun hmm => hna ((contains_iff_mem _ _).mpr hmm)
      simp [normCell, hm, to_datetime_cell, hv]

theorem load_data_ok_branch (s : String) (df0 : DataFrame)
    (hp : read_csv s = .ok df0)
    (hDT : (renameDateCol df0).cols.contains "DateTime" = true) :
    load_data (some s) = (some s,
      .ok (reindex (backfill (toDatetimeCol (renameDateCol df0)) cols_unique)
        cols_unique)) := by
  show (some s,
      match read_csv s with
      | Except.error e => Except.error e
      | Except.ok df0 =>
        let df1 := renameDateCol df0
        if df1.cols.contains "DateTime" = true then
          Except.ok (reindex (backfill (toDatetimeCol df1) cols_unique) cols_unique)
        else Except.error LoadError.keyError) = _
  rw [hp]
  have hm : "DateTime" ∈ (renameDateCol df0).cols := (contains_iff_mem _ _).mp hDT
  simp [hDT, hm]

theorem load_data_err_branch (s : String) (e : LoadError)
    (hp : read_csv s = .error e) :
    load_data (some s) = (some s, .error e) := by
  show (some s,
      match read_csv s with
      | Except.error e => Except.error e
      | Except.ok df0 =>
        let df1 := renameDateCol df0
        if df1.cols.contains "DateTime" = true then
          Except.ok (reindex (backfill (toDatetimeCol df1) cols_unique) cols_unique)
        else Except.error LoadError.keyError) = _
  rw [hp]

theorem load_data_keyError_branch (s : String) (df0 : DataFrame)
    (hp : read_csv s = .ok df0)
    (hDT : (renameDateCol df0).cols.contains "DateTime" = false) :
    load_data (some s) = (some s, .error .keyError) := by
  show (some s,
      match read_csv s with
      | Except.error e => Except.error e
      | Except.ok df0 =>
        let df1 := renameDateCol df0
        if df1.cols.contains "DateTime" = true then
          Except.ok (reindex (backfill (toDatetimeCol df1) cols_unique) cols_unique)
        else Except.error LoadError.keyError) = _
  rw [hp]
  have hm : "DateTime" ∉ (renameDateCol df0).cols := by
    intro hmem
    rw [(contains_iff_mem _ _).mpr hmem] at hDT
    cases hDT
  simp [hDT, hm]

theorem dt_mem_ALL : "DateTime" ∈ ALL_COLUMNS := by
  rw [ALL_COLUMNS_eq]; decide

theorem load_of_save (df : DataFrame) (fs : FS)
    (hcols : df.cols = ALL_COLUMNS)
    (hrlen : ∀ r ∈ df.rows, r.length = ALL_COLUMNS.length)
    (hdt : ∀ r ∈ df.rows, validDTCell (getCell df.cols r "DateTime") = true) :
    load_data (save_data df fs) = (some (to_csv df), .ok (normalizeDF df)) := by
  have hparse : read_csv (to_csv df)
      = .ok ⟨df.cols, df.rows.map (List.map normCell)⟩ :=
    read_csv_to_csv df
      (by rw [hcols, ALL_COLUMNS_eq]; decide)
      (by intro r hr; rw [hcols]; exact hrlen r hr)
  have hc0 : (⟨df.cols, df.rows.map (List.map normCell)⟩ : DataFrame).cols
      = df.cols := rfl
  have hmemdt : "DateTime" ∈ df.cols := by rw [hcols]; exact dt_mem_ALL
  have hren : renameDateCol ⟨df.cols, df.rows.map (List.map normCell)⟩
      = ⟨df.cols, df.rows.map (List.map normCell)⟩ :=
    renameDateCol_eq_self _ (by rw [hc0]; exact hmemdt)
  have hDT : (renameDateCol ⟨df.cols, df.rows.map (List.map normCell)⟩).cols.contains
      "DateTime" = true := by
    rw [hren, hc0]
    exact (contains_iff_mem _ _).mpr hmemdt
  have hsd : save_data df fs = some (to_csv df) := rfl
  rw [hsd, load_data_ok_branch (to_csv df) _ hparse hDT, hren]
  have hnd0 : (⟨df.cols, df.rows.map (List.map normCell)⟩ : DataFrame).cols.Nodup := by
    rw [hc0, hcols]; exact ALL_COLUMNS_nodup
  have hlen0 : ∀ r ∈ (⟨df.cols, df.rows.map (List.map normCell)⟩ : DataFrame).rows,
      r.length = (⟨df.cols, df.rows.map (List.map normCell)⟩ : DataFrame).cols.length := by
    intro r hr
    rcases List.mem_map.mp hr with ⟨r0, hr0, rfl⟩
    rw [List.length_map, hc0, hcols]
    exact hrlen r0 hr0
  have htd : toDatetimeCol ⟨df.cols, df.rows.map (List.map normCell)⟩
      = ⟨df.cols, df.rows.map (List.map normCell)⟩ := by
    apply toDatetimeCol_eq_self _ hnd0 hlen0
    intro r hr
    rcases List.mem_map.mp hr with ⟨r0, hr0, rfl⟩
    have hlenr : r0.length = df.cols.length := by rw [hcols]; exact hrlen r0 hr0
    rw [hc0, getCell_map df.cols r0 "DateTime" normCell hmemdt hlenr]
    exact td_normCell _ (hdt r0 hr0)
  rw [htd]
  have hbf : backfill ⟨df.cols, df.rows.map (List.map normCell)⟩ cols_unique
      = ⟨df.cols, df.rows.map (List.map normCell)⟩ := by
    apply backfill_eq_self
    intro c hc
    apply (contains_iff_mem _ _).mpr
    rw [hc0, hcols, ALL_COLUMNS_eq]
    rw [cols_unique_eq] at hc
    exact hc
  rw [hbf]
  have hcu : cols_unique = (⟨df.cols, df.rows.map (List.map normCell)⟩ : DataFrame).cols := by
    rw [hc0, hcols, ALL_COLUMNS_eq, cols_unique_eq]
  rw [hcu, reindex_self _ hnd0 hlen0]
  rfl

theorem to_csv_ne_empty (df : DataFrame) : to_csv df ≠ "" := by
  intro h
  have : (to_csv df).data = ("" : String).data := by rw [h]
  have hd : (to_csv df).data
      = joinSep '\n'
          (joinSep ',' (df.cols.map (fun c => csvField c.data))
            :: df.rows.map (fun r => joinSep ',' (r.map renderCell))) ++ ['\n'] := rfl
  rw [hd] at this
  simp at this

theorem chunk_in_joinSep (sep : Char) (xs : List (List Char)) (x : List Char)
    (h : x ∈ xs) : ∃ pre suf, joinSep sep xs = pre ++ (x ++ suf) := by
  induction xs with
  | nil => simp at h
  | cons y ys ih =>
    cases ys with
    | nil =>
      rcases List.mem_singleton.mp h with rfl
      exact ⟨[], [], by simp [joinSep]⟩
    | cons z zs =>
      rcases List.mem_cons.mp h with rfl | h
      · exact ⟨[], sep :: joinSep sep (z :: zs), rfl⟩
      · rcases ih h with ⟨pre, suf, hps⟩
        refine ⟨y ++ sep :: pre, suf, ?_⟩
        have : joinSep sep (y :: z :: zs) = y ++ sep :: joinSep sep (z :: zs) := rfl
        rw [this, hps]
        simp

/-- Every plain cell value of a frame occurs verbatim, as a contiguous
run of characters, inside its `to_csv` serialization. -/
theorem cell_text_in_to_csv (df : DataFrame) (r : List Cell) (s : String)
    (hr : r ∈ df.rows) (hc : some s ∈ r) (hp : plainStr s = true) :
    ∃ pre suf, (to_csv df).data = pre ++ (s.data ++ suf) := by
  have h1 : s.data ∈ r.map renderCell := by
    have : renderCell (some s) = s.data := by
      simp [renderCell, csvField_plain s.data hp]
    exact this ▸ List.mem_map_of_mem renderCell hc
  rcases chunk_in_joinSep ',' (r.map renderCell) s.data h1 with ⟨p1, s1, hrow⟩
  have h2 : joinSep ',' (r.map renderCell)
      ∈ (joinSep ',' (df.cols.map (fun c => csvField c.data))
          :: df.rows.map (fun x => joinSep ',' (x.map renderCell))) := by
    apply List.mem_cons_of_mem
    exact List.mem_map_of_mem _ hr
  rcases chunk_in_joinSep '\n' _ _ h2 with ⟨p2, s2, hfile⟩
  refine ⟨p2 ++ p1, s1 ++ (s2 ++ ['\n']), ?_⟩
  have hd : (to_csv df).data
      = joinSep '\n'
          (joinSep ',' (df.cols.map (fun c => csvField c.data))
            :: df.rows.map (fun x => joinSep ',' (x.map renderCell))) ++ ['\n'] := rfl
  rw [hd, hfile, hrow]
  simp

theorem getCell_renamed (cols : List String) (xs : List Cell)
    (h : "DateTime" ∉ cols) :
    getCell (cols.map (fun c => if c = "Date" then "DateTime" else c)) xs "DateTime"
      = getCell cols xs "Date" := by
  induction cols generalizing xs with
  | nil => cases xs <;> rfl
  | cons c cs ih =>
    cases xs with
    | nil => rfl
    | cons x xs' =>
      have hcd : c ≠ "DateTime" := fun he => h (he ▸ List.mem_cons_self c cs)
      have htail : "DateTime" ∉ cs := fun hm => h (List.mem_cons_of_mem c hm)
      by_cases hc : c = "Date"
      · simp [List.map_cons, getCell, hc]
      · simp [List.map_cons, getCell, hc, hcd, ih xs' htail]

theorem renamed_mem_dt (cols : List String) (h : "Date" ∈ cols) :
    "DateTime" ∈ cols.map (fun c => if c = "Date" then "DateTime" else c) := by
  apply List.mem_map.mpr
  exact ⟨"Date", h, by simp⟩

/-! ## Lemmas: the duplicate-timestamp guard and the edit fold -/

theorem dup_any_iff (df : DataFrame) (dt : String) :
    df.rows.any (fun r => dupAt df.cols r dt) = true ↔
      ∃ r ∈ df.rows, ∃ s, getCell df.cols r "DateTime" = some s ∧
        minuteKey s = minuteKey dt := by
  rw [List.any_eq_true]
  constructor
  · rintro ⟨r, hr, hdup⟩
    refine ⟨r, hr, ?_⟩
    unfold dupAt at hdup
    cases hg : getCell df.cols r "DateTime" with
    | none => rw [hg] at hdup; cases hdup
    | some s =>
      rw [hg] at hdup
      exact ⟨s, rfl, by simpa using hdup⟩
  · rintro ⟨r, hr, s, hg, hk⟩
    refine ⟨r, hr, ?_⟩
    unfold dupAt
    rw [hg]
    simpa using hk

theorem saveEntryClick_already (df : DataFrame) (fs : FS)
    (dt mood focus : String) (fields : List (String × String))
    (h : df.rows.any (fun r => dupAt df.cols r dt) = true) :
    saveEntryClick df fs dt mood focus fields = (fs, df, false) := by
  unfold saveEntryClick
  have hni : df.rows.isEmpty = false := by
    cases hr : df.rows with
    | nil => rw [hr] at h; cases h
    | cons _ _ => rfl
  simp [hni, h]

theorem saveEntryClick_fresh (df : DataFrame) (fs : FS)
    (dt mood focus : String) (fields : List (String × String))
    (h : df.rows.any (fun r => dupAt df.cols r dt) = false) :
    saveEntryClick df fs dt mood focus fields
      = (some (to_csv (add_entry df dt mood focus fields)),
         add_entry df dt mood focus fields, true) := by
  unfold saveEntryClick
  cases hr : df.rows with
  | nil => simp [hr]; rfl
  | cons a b =>
    rw [hr] at h
    simp [hr, h]
    rfl

theorem foldl_setCell_length (cols : List String) (kvs : List (String × String))
    (r : List Cell) :
    (kvs.foldl (fun row kv => setCell cols row kv.1 (some kv.2)) r).length
      = r.length := by
  induction kvs generalizing r with
  | nil => rfl
  | cons kv kvs' ih =>
    simp only [List.foldl_cons]
    rw [ih, setCell_length]

theorem getCell_foldl_setCell_not_mem (cols : List String) (r : List Cell)
    (kvs : List (String × String)) (col : String)
    (h : ∀ kv ∈ kvs, col ≠ kv.1) :
    getCell cols (kvs.foldl (fun row kv => setCell cols row kv.1 (some kv.2)) r) col
      = getCell cols r col := by
  induction kvs generalizing r with
  | nil => rfl
  | cons kv kvs' ih =>
    simp only [List.foldl_cons]
    rw [ih (setCell cols r kv.1 (some kv.2))
      (fun kv' h' => h kv' (List.mem_cons_of_mem kv h'))]
    exact getCell_setCell_ne cols r kv.1 col (some kv.2)
      (h kv (List.mem_cons_self kv kvs'))

theorem getCell_foldl_setCell_mem (cols : List String)
    (kvs : List (String × String)) (r : List Cell) (k : String) (v : String)
    (hmem : k ∈ cols) (hlen : r.length = cols.length)
    (hin : (k, v) ∈ kvs) (hnodup : (kvs.map Prod.fst).Nodup) :
    getCell cols (kvs.foldl (fun row kv => setCell cols row kv.1 (some kv.2)) r) k
      = some v := by
  induction kvs generalizing r with
  | nil => simp at hin
  | cons kv kvs' ih =>
    rcases List.mem_cons.mp hin with heq | hin'
    · subst heq
      have hnot : ∀ kv' ∈ kvs', k ≠ kv'.1 := by
        intro kv' hkv' he
        have : k ∈ kvs'.map Prod.fst := List.mem_map.mpr ⟨kv', hkv', he.symm⟩
        exact (List.nodup_cons.mp hnodup).1 this
      simp only [List.foldl_cons]
      rw [getCell_foldl_setCell_not_mem cols _ kvs' k hnot]
      exact getCell_setCell_eq cols r k (some v) hmem hlen
    · simp only [List.foldl_cons]
      exact ih (setCell cols r kv.1 (some kv.2))
        (by rw [setCell_length]; exact hlen) hin'
        (List.nodup_cons.mp hnodup).2

/-! ## Claim theorems -/

/-- C1 (amended): the spec says the on-disk artifact is the opaque
encrypted blob `Cipher.encrypt(serialize(Table), key)`; in the code
`save_data` writes the plaintext CSV serialization `to_csv(df)` with no
encryption at all, and every unquoted field value appears verbatim, as a
contiguous character run, inside the artifact. -/
theorem save_data_writes_plaintext (df : DataFrame) (fs : FS) :
    save_data df fs = some (to_csv df) ∧
    ∀ r ∈ df.rows, ∀ s : String, some s ∈ r → plainStr s = true →
      ∃ pre suf, (to_csv df).data = pre ++ (s.data ++ suf) :=
  ⟨rfl, fun r hr s hs hp => cell_text_in_to_csv df r s hr hs hp⟩

/-- C1, counterexample to the claim as stated: the artifact written for
a concrete one-row table is the CSV text itself — the mood "Happy"
stands in it in clear, so the artifact is not an opaque encrypted
blob. -/
theorem save_data_plaintext_cex :
    save_data sampleDF none = some (to_csv sampleDF) ∧
    to_csv sampleDF =
      "DateTime,Mood,Focus,Amount,Category,Craving (0-10),Emotion After,Emotion Before,Energy,Focus Level,Food Items,Hunger (0-10),Items,Meal,Mood After,Mood Before,Name,Need vs Want (1-5),Negative Thought,Notes,Reframe,Stress (0-10),Time Range,Trigger\n2024-01-02 03:04:05,Happy,Time Log,,,,,,,,,,,,,,reading,,,,,,,\n" ∧
    (∃ pre suf, (to_csv sampleDF).data = pre ++ ("Happy".data ++ suf)) := by
  refine ⟨rfl, by rfl, ?_⟩
  exact ⟨("DateTime,Mood,Focus,Amount,Category,Craving (0-10),Emotion After,Emotion Before,Energy,Focus Level,Food Items,Hunger (0-10),Items,Meal,Mood After,Mood Before,Name,Need vs Want (1-5),Negative Thought,Notes,Reframe,Stress (0-10),Time Range,Trigger\n2024-01-02 03:04:05,").data,
    (",Time Log,,,,,,,,,,,,,,reading,,,,,,,\n").data, by rfl⟩

/-- C1, witness: the plaintext theorem applied to the concrete one-row
frame and its "Happy" mood cell. -/
theorem save_data_writes_plaintext_witness :
    ∃ pre suf, (to_csv sampleDF).data = pre ++ ("Happy".data ++ suf) :=
  (save_data_writes_plaintext sampleDF none).2 sampleRow
    (List.mem_cons_self sampleRow []) "Happy" (by decide) (by decide)

/-- C2 (amended): `save_data` stages nothing — `to_csv` truncates the
target and writes in place, so an interruption after 0 bytes leaves an
empty artifact that equals neither the old nor the new serialization,
and that `load_data` fails to parse (pandas `EmptyDataError`). -/
theorem save_interrupted_not_atomic (dfOld dfNew : DataFrame) :
    save_data_interrupted dfNew 0 (some (to_csv dfOld)) = some "" ∧
    save_data_interrupted dfNew 0 (some (to_csv dfOld)) ≠ some (to_csv dfOld) ∧
    save_data_interrupted dfNew 0 (some (to_csv dfOld)) ≠ some (to_csv dfNew) ∧
    (load_data (some "")).2 = .error .emptyData := by
  refine ⟨rfl, ?_, ?_, rfl⟩
  · intro h
    exact to_csv_ne_empty dfOld ((Option.some.inj h).symm)
  · intro h
    exact to_csv_ne_empty dfNew ((Option.some.inj h).symm)

/-- C2, counterexample to the claim as stated: starting from a valid
artifact for `sampleDF`, a save of `sampleDF2` interrupted at 0 bytes
leaves an empty file — not the old content, not the new content, and
unreadable by `load_data`. -/
theorem save_interrupted_cex :
    save_data_interrupted sampleDF2 0 (save_data sampleDF none) = some "" ∧
    save_data_interrupted sampleDF2 0 (save_data sampleDF none)
      ≠ save_data sampleDF none ∧
    save_data_interrupted sampleDF2 0 (save_data sampleDF none)
      ≠ some (to_csv sampleDF2) ∧
    (load_data (save_data_interrupted sampleDF2 0 (save_data sampleDF none))).2
      = .error .emptyData := by
  refine ⟨rfl, ?_, ?_, rfl⟩
  · intro h
    exact to_csv_ne_empty sampleDF ((Option.some.inj h).symm)
  · intro h
    exact to_csv_ne_empty sampleDF2 ((Option.some.inj h).symm)

/-- C4 (amended): one `save_data`/`load_data` cycle on a canonical frame
preserves the record count, the record order and every field value,
except that any cell whose text is one of pandas' default NA tokens
(the empty string, "nan", "NaN", "None", "NA", "N/A", "null", ...) comes
back as `NaN`/missing (`read_csv` maps such a field to missing): the
loaded frame is exactly `normalizeDF df`. -/
theorem save_load_roundtrip_collapses_empty (df : DataFrame) (fs : FS)
    (hcols : df.cols = ALL_COLUMNS)
    (hrlen : ∀ r ∈ df.rows, r.length = ALL_COLUMNS.length)
    (hdt : ∀ r ∈ df.rows, validDTCell (getCell df.cols r "DateTime") = true) :
    (load_data (save_data df fs)).2 = .ok (normalizeDF df) := by
  rw [load_of_save df fs hcols hrlen hdt]

/-- C4, counterexample to the claim as stated: the first sample frame
holds empty-string cells (every unused focus field) and the second holds
a `Notes` cell reading `"nan"`; after save-then-load those cells are
`NaN`, so neither loaded table is field-for-field equal to the saved
one. -/
theorem save_load_roundtrip_cex :
    ((load_data (save_data sampleDF none)).2 = .ok (normalizeDF sampleDF) ∧
    normalizeDF sampleDF ≠ sampleDF ∧
    (load_data (save_data sampleDF none)).2 ≠ .ok sampleDF) ∧
    ((load_data (save_data sampleDFnan none)).2 = .ok (normalizeDF sampleDFnan) ∧
    getCell sampleDFnan.cols (sampleDFnan.rows.headI) "Notes" = some "nan" ∧
    getCell (normalizeDF sampleDFnan).cols
      ((normalizeDF sampleDFnan).rows.headI) "Notes" = none ∧
    (load_data (save_data sampleDFnan none)).2 ≠ .ok sampleDFnan) := by
  have h1 : (load_data (save_data sampleDF none)).2 = .ok (normalizeDF sampleDF) := by
    rw [load_of_save sampleDF none rfl (by decide) (by decide)]
  have h2 : normalizeDF sampleDF ≠ sampleDF := by decide
  have h3 : (load_data (save_data sampleDFnan none)).2
      = .ok (normalizeDF sampleDFnan) := by
    rw [load_of_save sampleDFnan none ALL_COLUMNS_eq.symm (by decide) (by decide)]
  have h4 : normalizeDF sampleDFnan ≠ sampleDFnan := by decide
  refine ⟨⟨h1, h2, fun h => h2 (Except.ok.inj ((h1.symm).trans h))⟩,
    h3, by decide, by decide,
    fun h => h4 (Except.ok.inj ((h3.symm).trans h))⟩

/-- C4, witness: the amended round-trip theorem at the sample frame. -/
theorem save_load_roundtrip_collapses_empty_witness :
    (load_data (save_data sampleDF none)).2 = .ok (normalizeDF sampleDF) :=
  save_load_roundtrip_collapses_empty sampleDF none rfl
    (by decide) (by decide)

/-- C5: with no artifact on disk (`FileNotFoundError`), `load_data`
returns the empty frame over exactly the canonical columns in canonical
order, `load_data` never writes or creates the file (the state component
passes through unchanged for every file state), and the "nothing saved
yet" outcome (`Except.ok`) is distinguishable from a corruption failure
(an empty artifact yields `Except.error .emptyData`). -/
theorem load_data_no_artifact :
    load_data none = (none, .ok ⟨ALL_COLUMNS, []⟩) ∧
    (⟨ALL_COLUMNS, ([] : List (List Cell))⟩ : DataFrame).cols = ALL_COLUMNS_LIST ∧
    (∀ fs, (load_data fs).1 = fs) ∧
    (load_data (some "")).2 = .error .emptyData := by
  refine ⟨rfl, ALL_COLUMNS_eq, ?_, rfl⟩
  intro fs
  cases fs with
  | none => rfl
  | some s => rfl

theorem load_post_colValues_dt (df1 : DataFrame)
    (hDT : "DateTime" ∈ df1.cols)
    (hlen : ∀ r ∈ df1.rows, r.length = df1.cols.length) :
    colValues (reindex (backfill (toDatetimeCol df1) cols_unique) cols_unique) "DateTime"
      = (colValues df1 "DateTime").map to_datetime_cell := by
  have h := load_post_colValues df1 hDT hlen "DateTime" (by rw [cols_unique_eq]; decide)
  rw [if_pos hDT, if_pos rfl] at h
  exact h

/-- C6 (amended): for a persisted file whose columns are a subset of the
canonical set and do include `DateTime`, `load_data` returns a frame
with exactly the canonical columns in canonical order; a column that was
present keeps its values (`DateTime` coerced through `to_datetime`), a
missing column is back-filled with the empty string in every row.  When
the subset contains neither `DateTime` nor the legacy `Date`, `load_data`
instead raises `KeyError` (see the counterexample). -/
theorem load_backfills_subset_columns (s : String) (df0 : DataFrame)
    (hp : read_csv s = .ok df0)
    (hsub : ∀ c ∈ df0.cols, c ∈ ALL_COLUMNS)
    (hDT : "DateTime" ∈ df0.cols) :
    ∃ df', (load_data (some s)).2 = .ok df' ∧
      df'.cols = ALL_COLUMNS_LIST ∧
      df'.rows.length = df0.rows.length ∧
      ∀ col ∈ ALL_COLUMNS,
        colValues df' col =
          if col ∈ df0.cols then
            (if col = "DateTime" then (colValues df0 col).map to_datetime_cell
             else colValues df0 col)
          else List.replicate df0.rows.length (some "") := by
  have hren : renameDateCol df0 = df0 := renameDateCol_eq_self df0 hDT
  have hDTc : (renameDateCol df0).cols.contains "DateTime" = true := by
    rw [hren]
    exact (contains_iff_mem _ _).mpr hDT
  have hload := load_data_ok_branch s df0 hp hDTc
  rw [hren] at hload
  have hlens := read_csv_ok_row_lengths s df0 hp
  refine ⟨reindex (backfill (toDatetimeCol df0) cols_unique) cols_unique,
    by rw [hload], cols_unique_eq, ?_, ?_⟩
  · have h1 : ∀ (B : DataFrame) (L : List String),
        (reindex B L).rows.length = B.rows.length := by
      intro B L
      simp [reindex]
    rw [h1, backfill_rows cols_unique (toDatetimeCol df0) cols_unique_nodup,
      List.length_map]
    simp [toDatetimeCol]
  · intro col hcol
    have hcu : col ∈ cols_unique := by
      rw [cols_unique_eq, ← ALL_COLUMNS_eq]
      exact hcol
    exact load_post_colValues df0 hDT hlens col hcu

/-- C6, counterexample to the claim as stated: the file `"Mood\nHappy"`
has columns that are a strict subset of the canonical set, yet `load_data`
does not back-fill — line 64 of the source evaluates `df["DateTime"]` on
a frame with no `DateTime` (and no legacy `Date`) column and raises
`KeyError`, which `load_data` does not catch. -/
theorem load_missing_datetime_cex :
    read_csv "Mood\nHappy\n" = .ok ⟨["Mood"], [[some "Happy"]]⟩ ∧
    (∀ c ∈ (["Mood"] : List String), c ∈ ALL_COLUMNS) ∧
    (load_data (some "Mood\nHappy\n")).2 = .error .keyError := by
  refine ⟨rfl, ?_, rfl⟩
  intro c hc
  rcases List.mem_singleton.mp hc with rfl
  rw [ALL_COLUMNS_eq]
  decide

/-- C6, witness: the back-fill theorem at a two-column file. -/
theorem load_backfills_subset_columns_witness :
    ∃ df', (load_data (some "DateTime,Mood\n2024-01-02 03:04:05,Happy\n")).2
        = .ok df' ∧
      df'.cols = ALL_COLUMNS_LIST ∧
      df'.rows.length = (⟨["DateTime", "Mood"],
        [[some "2024-01-02 03:04:05", some "Happy"]]⟩ : DataFrame).rows.length ∧
      ∀ col ∈ ALL_COLUMNS,
        colValues df' col =
          if col ∈ (⟨["DateTime", "Mood"],
              [[some "2024-01-02 03:04:05", some "Happy"]]⟩ : DataFrame).cols then
            (if col = "DateTime" then
              (colValues ⟨["DateTime", "Mood"],
                [[some "2024-01-02 03:04:05", some "Happy"]]⟩ col).map to_datetime_cell
             else colValues ⟨["DateTime", "Mood"],
                [[some "2024-01-02 03:04:05", some "Happy"]]⟩ col)
          else List.replicate (⟨["DateTime", "Mood"],
            [[some "2024-01-02 03:04:05", some "Happy"]]⟩ : DataFrame).rows.length
            (some "") :=
  load_backfills_subset_columns "DateTime,Mood\n2024-01-02 03:04:05,Happy\n"
    ⟨["DateTime", "Mood"], [[some "2024-01-02 03:04:05", some "Happy"]]⟩
    (by rfl)
    (by
      intro c hc
      rw [ALL_COLUMNS_eq]
      rcases List.mem_cons.mp hc with rfl | hc
      · decide
      · rcases List.mem_singleton.mp hc with rfl
        decide)
    (List.mem_cons_self _ _)

/-- C8: when the persisted file has no `DateTime` column but has a
legacy `Date` column, `load_data` renames `Date` to `DateTime` (source
lines 62-63) and the loaded frame's `DateTime` values are exactly the old
`Date` values passed through `to_datetime` — a schema migration beyond
empty back-fill. -/
theorem load_renames_legacy_date (s : String) (df0 : DataFrame)
    (hp : read_csv s = .ok df0)
    (hnoDT : "DateTime" ∉ df0.cols)
    (hDate : "Date" ∈ df0.cols) :
    ∃ df', (load_data (some s)).2 = .ok df' ∧
      df'.cols = ALL_COLUMNS_LIST ∧
      colValues df' "DateTime" = (colValues df0 "Date").map to_datetime_cell := by
  have h1 : df0.cols.contains "DateTime" = false := by
    cases hb : df0.cols.contains "DateTime" with
    | false => rfl
    | true => exact absurd ((contains_iff_mem _ _).mp hb) hnoDT
  have hcond : (!df0.cols.contains "DateTime" && df0.cols.contains "Date") = true := by
    rw [h1, (contains_iff_mem _ _).mpr hDate]
    rfl
  have hren : renameDateCol df0
      = ⟨df0.cols.map (fun c => if c = "Date" then "DateTime" else c), df0.rows⟩ := by
    unfold renameDateCol
    rw [hcond]
    rfl
  have hDT1 : "DateTime" ∈ (⟨df0.cols.map (fun c => if c = "Date" then "DateTime" else c),
      df0.rows⟩ : DataFrame).cols := renamed_mem_dt df0.cols hDate
  have hDTc : (renameDateCol df0).cols.contains "DateTime" = true := by
    rw [hren]
    exact (contains_iff_mem _ _).mpr hDT1
  have hload := load_data_ok_branch s df0 hp hDTc
  rw [hren] at hload
  have hlen1 : ∀ r ∈ (⟨df0.cols.map (fun c => if c = "Date" then "DateTime" else c),
      df0.rows⟩ : DataFrame).rows,
      r.length = (⟨df0.cols.map (fun c => if c = "Date" then "DateTime" else c),
        df0.rows⟩ : DataFrame).cols.length := by
    intro r hr
    show r.length = (df0.cols.map (fun c => if c = "Date" then "DateTime" else c)).length
    rw [List.length_map]
    exact read_csv_ok_row_lengths s df0 hp r hr
  refine ⟨reindex (backfill (toDatetimeCol ⟨df0.cols.map
      (fun c => if c = "Date" then "DateTime" else c), df0.rows⟩) cols_unique)
      cols_unique,
    by rw [hload], cols_unique_eq, ?_⟩
  rw [load_post_colValues_dt
    ⟨df0.cols.map (fun c => if c = "Date" then "DateTime" else c), df0.rows⟩
    hDT1 hlen1]
  congr 1
  apply List.map_congr_left
  intro r _
  exact getCell_renamed df0.cols r hnoDT

/-- C8, witness: the rename theorem at a legacy two-column file whose
`Date` value "2024-01-02" becomes the midnight timestamp. -/
theorem load_renames_legacy_date_witness :
    ∃ df', (load_data (some "Date,Mood\n2024-01-02,Happy\n")).2 = .ok df' ∧
      df'.cols = ALL_COLUMNS_LIST ∧
      colValues df' "DateTime"
        = (colValues ⟨["Date", "Mood"], [[some "2024-01-02", some "Happy"]]⟩
            "Date").map to_datetime_cell :=
  load_renames_legacy_date "Date,Mood\n2024-01-02,Happy\n"
    ⟨["Date", "Mood"], [[some "2024-01-02", some "Happy"]]⟩
    (by rfl) (by decide) (List.mem_cons_self _ _)

/-- C9: the "Save Entry" handler rejects the new entry — leaving the
file state and the frame untouched — exactly when some existing row's
timestamp agrees with the new one on the first 16 characters
(`YYYY-MM-DD HH:MM`, minute precision); otherwise it appends the row via
`add_entry` and persists the new frame. -/
theorem save_entry_minute_duplicate_guard (df : DataFrame) (fs : FS)
    (dt mood focus : String) (fields : List (String × String)) :
    ((∃ r ∈ df.rows, ∃ s, getCell df.cols r "DateTime" = some s ∧
        minuteKey s = minuteKey dt) →
      saveEntryClick df fs dt mood focus fields = (fs, df, false)) ∧
    ((¬ ∃ r ∈ df.rows, ∃ s, getCell df.cols r "DateTime" = some s ∧
        minuteKey s = minuteKey dt) →
      saveEntryClick df fs dt mood focus fields
        = (some (to_csv (add_entry df dt mood focus fields)),
           add_entry df dt mood focus fields, true)) := by
  constructor
  · intro hdup
    exact saveEntryClick_already df fs dt mood focus fields
      ((dup_any_iff df dt).mpr hdup)
  · intro hfresh
    apply saveEntryClick_fresh df fs dt mood focus fields
    cases hb : df.rows.any (fun r => dupAt df.cols r dt) with
    | false => rfl
    | true => exact absurd ((dup_any_iff df dt).mp hb) hfresh

/-- C9, witness: with `sampleDF` on disk, an entry at 03:04:59 of the
same day collides at minute precision with the stored 03:04:05 entry and
is rejected with no write. -/
theorem save_entry_minute_duplicate_guard_witness :
    saveEntryClick sampleDF (save_data sampleDF none) "2024-01-02 03:04:59"
        "Calm" "Time Log" [] = (save_data sampleDF none, sampleDF, false) :=
  (save_entry_minute_duplicate_guard sampleDF (save_data sampleDF none)
      "2024-01-02 03:04:59" "Calm" "Time Log" []).1
    ⟨sampleRow, List.mem_cons_self sampleRow [],
     "2024-01-02 03:04:05", by decide, by decide⟩

/-- C10: `edit_entry` changes only row `idx`: the columns, the number of
rows and every other row are unchanged; in row `idx` the cells outside
`Mood`, `Focus` and the supplied focus fields are unchanged, while
`Mood`, `Focus` and each supplied field receive the new values. -/
theorem edit_entry_frame (df : DataFrame) (idx : Nat) (mood focus : String)
    (fields : List (String × String))
    (hcols : df.cols = ALL_COLUMNS)
    (hidx : idx < df.rows.length)
    (hrlen : ∀ r ∈ df.rows, r.length = ALL_COLUMNS.length)
    (hkeys : ∀ kv ∈ fields, kv.1 ∈ ALL_COLUMNS ∧ kv.1 ≠ "Mood" ∧ kv.1 ≠ "Focus")
    (hnodup : (fields.map Prod.fst).Nodup) :
    (edit_entry df idx mood focus fields).cols = df.cols ∧
    (edit_entry df idx mood focus fields).rows.length = df.rows.length ∧
    (∀ j, j ≠ idx →
      (edit_entry df idx mood focus fields).rows[j]? = df.rows[j]?) ∧
    (∀ col, col ≠ "Mood" → col ≠ "Focus" → (∀ kv ∈ fields, col ≠ kv.1) →
      getCellAtRow (edit_entry df idx mood focus fields) idx col
        = getCellAtRow df idx col) ∧
    getCellAtRow (edit_entry df idx mood focus fields) idx "Mood" = some mood ∧
    getCellAtRow (edit_entry df idx mood focus fields) idx "Focus" = some focus ∧
    (∀ k v, (k, v) ∈ fields →
      getCellAtRow (edit_entry df idx mood focus fields) idx k = some v) := by
  have hsome : df.rows[idx]? = some df.rows[idx] := List.getElem?_eq_getElem hidx
  have hrmem : df.rows[idx] ∈ df.rows := List.getElem_mem hidx
  have hlenr : df.rows[idx].length = df.cols.length := by
    rw [hcols]
    exact hrlen _ hrmem
  have hrowsidx : (edit_entry df idx mood focus fields).rows[idx]?
      = some (applyEdits df.cols mood focus fields df.rows[idx]) := by
    show (updateRowAt df.rows idx (applyEdits df.cols mood focus fields))[idx]?
      = _
    rw [updateRowAt_getElem_eq, hsome]
    rfl
  have hgetedit : ∀ col, getCellAtRow (edit_entry df idx mood focus fields) idx col
      = getCell df.cols
          (applyEdits df.cols mood focus fields df.rows[idx]) col := by
    intro col
    unfold getCellAtRow
    rw [hrowsidx]
    rfl
  have hgetorig : ∀ col, getCellAtRow df idx col
      = getCell df.cols df.rows[idx] col := by
    intro col
    unfold getCellAtRow
    rw [hsome]
  have hkvnodup : ((("Mood", mood) :: ("Focus", focus) :: fields).map
      Prod.fst).Nodup := by
    simp only [List.map_cons]
    apply List.nodup_cons.mpr
    constructor
    · intro hmem
      rcases List.mem_cons.mp hmem with h | h
      · exact absurd h.symm (by decide)
      · rcases List.mem_map.mp h with ⟨kv, hkv, he⟩
        exact (hkeys kv hkv).2.1 he
    · apply List.nodup_cons.mpr
      constructor
      · intro hmem
        rcases List.mem_map.mp hmem with ⟨kv, hkv, he⟩
        exact (hkeys kv hkv).2.2 he
      · exact hnodup
  refine ⟨rfl, ?_, ?_, ?_, ?_, ?_, ?_⟩
  · exact updateRowAt_length df.rows idx _
  · intro j hj
    exact updateRowAt_getElem_ne df.rows idx j _ hj
  · intro col h1 h2 h3
    rw [hgetedit, hgetorig]
    unfold applyEdits
    apply getCell_foldl_setCell_not_mem
    intro kv hkv
    rcases List.mem_cons.mp hkv with rfl | hkv
    · exact h1
    · rcases List.mem_cons.mp hkv with rfl | hkv
      · exact h2
      · exact h3 kv hkv
  · rw [hgetedit]
    unfold applyEdits
    apply getCell_foldl_setCell_mem df.cols _ _ "Mood" mood
      (by rw [hcols, ALL_COLUMNS_eq]; decide) hlenr
      (List.mem_cons_self _ _) hkvnodup
  · rw [hgetedit]
    unfold applyEdits
    apply getCell_foldl_setCell_mem df.cols _ _ "Focus" focus
      (by rw [hcols, ALL_COLUMNS_eq]; decide) hlenr
      (List.mem_cons_of_mem _ (List.mem_cons_self _ _)) hkvnodup
  · intro k v hkv
    rw [hgetedit]
    unfold applyEdits
    apply getCell_foldl_setCell_mem df.cols _ _ k v
      (by rw [hcols]; exact (hkeys (k, v) hkv).1) hlenr
      (List.mem_cons_of_mem _ (List.mem_cons_of_mem _ hkv)) hkvnodup

/-- C10, witness: editing row 0 of the sample frame sets `Name` to
"coding" and leaves `Notes` (an unsupplied column) unchanged. -/
theorem edit_entry_frame_witness :
    getCellAtRow (edit_entry sampleDF 0 "Calm" "Time Log" [("Name", "coding")])
        0 "Name" = some "coding" ∧
    getCellAtRow (edit_entry sampleDF 0 "Calm" "Time Log" [("Name", "coding")])
        0 "Notes" = getCellAtRow sampleDF 0 "Notes" := by
  have h := edit_entry_frame sampleDF 0 "Calm" "Time Log" [("Name", "coding")]
    rfl (by decide) (by decide)
    (by
      intro kv hkv
      rcases List.mem_singleton.mp hkv with rfl
      refine ⟨?_, by decide, by decide⟩
      rw [ALL_COLUMNS_eq]
      decide)
    (by decide)
  refine ⟨h.2.2.2.2.2.2 "Name" "coding" (List.mem_cons_self _ _),
    h.2.2.2.1 "Notes" (by decide) (by decide) ?_⟩
  intro kv hkv
  rcases List.mem_singleton.mp hkv with rfl
  decide
